import Mathlib

/-!
# GoCloud: cloud IP-range classifier and dispatch loop

A shallow embedding of `src/main.go`.

* Part 1 embeds the pieces of Go's `net` package that `IsCloudIP` calls
  (`ParseIP`, `ParseCIDR`, `IPNet.Contains` and their helpers, in the form they
  have in `net/ip.go` and `net/parse.go`).  A `net.IP` is a byte slice: here a
  `List Nat`, the nil slice being `[]`; every byte stored is reduced modulo 256
  where the code converts with `byte(...)`.  A Go string is read character by
  character; the parsers accept ASCII characters only, for which characters and
  bytes are the same.
* Part 2 embeds `CloudServices` (`IsCloudIP`, `ReadCloudServices`, the
  per-feed switch of `UpdateCloudServices`).  A panic is a `Fault`.
* Part 3 embeds the dispatch loop of `main`: the function computed by one
  domain's goroutine, and the loop as a step relation over the main goroutine,
  the live goroutines and the wait group.  The network and the random source
  are parameters: a `Resolver`, and for each line the number the random source
  hands to its goroutine.
-/

namespace GoCloud

/-! ## Part 1: Go's `net` package -/

/-- An address is a byte slice (`type IP []byte`); nil is `[]`. -/
abbrev IP := List Nat

/-- A mask is a byte slice (`type IPMask []byte`). -/
abbrev IPMask := List Nat

/-- A network (`type IPNet struct { IP IP; Mask IPMask }`). -/
structure IPNet where
  IP : IP
  Mask : IPMask
deriving DecidableEq, Repr

/-- The constant `IPv4len`. -/
def IPv4len : Nat := 4

/-- The constant `IPv6len`. -/
def IPv6len : Nat := 16

/-- The constant `big = 0xFFFFFF` of `net/parse.go`. -/
def big : Nat := 0xFFFFFF

/-- The prefix `v4InV6Prefix` of an IPv4 address in 16-byte form. -/
def v4InV6Prefix : List Nat := [0, 0, 0, 0, 0, 0, 0, 0, 0, 0, 0xff, 0xff]

/-- The function `IPv4(a, b, c, d)`: the 16-byte form of an IPv4 address. -/
def IPv4 (a b c d : Nat) : IP := v4InV6Prefix ++ [a, b, c, d]

/-- The loop of `dtoi`: `n` is the number read so far, `i` the index. -/
def dtoiLoop : List Char → Nat → Nat → Nat × Nat × Bool
  | [], n, i => if i = 0 then (0, 0, false) else (n, i, true)
  | ch :: rest, n, i =>
    if 48 ≤ ch.toNat ∧ ch.toNat ≤ 57 then
      let n1 := n * 10 + (ch.toNat - 48)
      if n1 ≥ big then (big, i, false) else dtoiLoop rest n1 (i + 1)
    else if i = 0 then (0, 0, false) else (n, i, true)

/-- Decimal to integer (`dtoi`): number, characters consumed, success. -/
def dtoi (s : List Char) : Nat × Nat × Bool := dtoiLoop s 0 0

/-- The loop of `xtoi`. -/
def xtoiLoop : List Char → Nat → Nat → Nat × Nat × Bool
  | [], n, i => if i = 0 then (0, i, false) else (n, i, true)
  | ch :: rest, n, i =>
    if 48 ≤ ch.toNat ∧ ch.toNat ≤ 57 then
      let n1 := n * 16 + (ch.toNat - 48)
      if n1 ≥ big then (0, i, false) else xtoiLoop rest n1 (i + 1)
    else if 97 ≤ ch.toNat ∧ ch.toNat ≤ 102 then
      let n1 := n * 16 + (ch.toNat - 97) + 10
      if n1 ≥ big then (0, i, false) else xtoiLoop rest n1 (i + 1)
    else if 65 ≤ ch.toNat ∧ ch.toNat ≤ 70 then
      let n1 := n * 16 + (ch.toNat - 65) + 10
      if n1 ≥ big then (0, i, false) else xtoiLoop rest n1 (i + 1)
    else if i = 0 then (0, i, false) else (n, i, true)

/-- Hexadecimal to integer (`xtoi`): number, characters consumed, success. -/
def xtoi (s : List Char) : Nat × Nat × Bool := xtoiLoop s 0 0

/-- The loop `for i := 0; i < IPv4len; i++` of `parseIPv4`; the first argument
counts the fields still to read, `p` is the array `[IPv4len]byte`. -/
def parseIPv4Loop : Nat → Nat → List Char → List Nat → Option (List Nat × List Char)
  | 0, _, s, p => some (p, s)
  | k + 1, i, s, p =>
    if s.length = 0 then none
    else
      let afterDot : Option (List Char) :=
        if i > 0 then (if s.head? ≠ some '.' then none else some (s.drop 1)) else some s
      match afterDot with
      | none => none
      | some s1 =>
        match dtoi s1 with
        | (n, c, ok) =>
          if !ok || n > 0xFF then none
          else if c > 1 && s1.head? = some '0' then none
          else parseIPv4Loop k (i + 1) (s1.drop c) (p.set i (n % 256))

/-- Parse an IPv4 address `d.d.d.d` (`parseIPv4`); the result is in 16-byte form. -/
def parseIPv4 (s : List Char) : Option IP :=
  match parseIPv4Loop IPv4len 0 s [0, 0, 0, 0] with
  | none => none
  | some (p, rest) =>
    if rest.length ≠ 0 then none
    else some (IPv4 (p.getD 0 0) (p.getD 1 0) (p.getD 2 0) (p.getD 3 0))

/-- The state of the main loop of `parseIPv6` when it is left. -/
structure V6State where
  ip : List Nat
  ellipsis : Int
  i : Nat
  s : List Char

/-- The loop `for i < IPv6len` of `parseIPv6`.  Every pass that continues adds 2
to `i`, so the first argument (the passes left, 8 at the start) is 0 exactly
when `i = IPv6len`.  The result is `none` where the code returns nil. -/
def parseIPv6Loop : Nat → V6State → Option V6State
  | 0, st => some st
  | f + 1, st =>
    if ¬ st.i < IPv6len then some st
    else
      match xtoi st.s with
      | (n, c, ok) =>
        if !ok || n > 0xFFFF then none
        else if c < st.s.length && st.s.get? c = some '.' then
          if st.ellipsis < 0 && st.i ≠ IPv6len - IPv4len then none
          else if st.i + IPv4len > IPv6len then none
          else
            match parseIPv4 st.s with
            | none => none
            | some ip4 =>
              some { ip := (((st.ip.set st.i (ip4.getD 12 0)).set (st.i + 1) (ip4.getD 13 0)).set
                              (st.i + 2) (ip4.getD 14 0)).set (st.i + 3) (ip4.getD 15 0),
                     ellipsis := st.ellipsis, i := st.i + IPv4len, s := [] }
        else
          let ip1 := (st.ip.set st.i ((n >>> 8) % 256)).set (st.i + 1) (n % 256)
          let i1 := st.i + 2
          let s1 := st.s.drop c
          if s1.length = 0 then some { ip := ip1, ellipsis := st.ellipsis, i := i1, s := s1 }
          else if s1.head? ≠ some ':' || s1.length = 1 then none
          else
            let s2 := s1.drop 1
            if s2.head? = some ':' then
              if st.ellipsis ≥ 0 then none
              else
                let s3 := s2.drop 1
                if s3.length = 0 then some { ip := ip1, ellipsis := i1, i := i1, s := s3 }
                else parseIPv6Loop f { ip := ip1, ellipsis := i1, i := i1, s := s3 }
            else parseIPv6Loop f { ip := ip1, ellipsis := st.ellipsis, i := i1, s := s2 }

/-- The loop `for j := i - 1; j >= ellipsis; j-- { ip[j+n] = ip[j] }`; the first
argument is `j + 1`. -/
def expandShift (n e : Nat) : Nat → List Nat → List Nat
  | 0, ip => ip
  | j + 1, ip => if j ≥ e then expandShift n e j (ip.set (j + n) (ip.getD j 0)) else ip

/-- The loop `for j := ellipsis + n - 1; j >= ellipsis; j-- { ip[j] = 0 }`; the
first argument is `j + 1`. -/
def expandZero (e : Nat) : Nat → List Nat → List Nat
  | 0, ip => ip
  | j + 1, ip => if j ≥ e then expandZero e j (ip.set j 0) else ip

/-- Parse an IPv6 address (`parseIPv6`, no zone). -/
def parseIPv6 (s : List Char) : Option IP :=
  let ip0 : List Nat := List.replicate IPv6len 0
  let lead : Bool := s.length ≥ 2 && s.head? = some ':' && s.get? 1 = some ':'
  let s0 := if lead then s.drop 2 else s
  let e0 : Int := if lead then 0 else -1
  if lead && s0.length = 0 then some ip0
  else
    match parseIPv6Loop 8 { ip := ip0, ellipsis := e0, i := 0, s := s0 } with
    | none => none
    | some st =>
      if st.s.length ≠ 0 then none
      else if st.i < IPv6len then
        if st.ellipsis < 0 then none
        else
          let n := IPv6len - st.i
          let e := st.ellipsis.toNat
          some (expandZero e (e + n) (expandShift n e st.i st.ip))
      else if st.ellipsis ≥ 0 then none
      else some st.ip

/-- The dispatch loop of `ParseIP`: the first `.` or `:` decides the parser. -/
def parseIPScan (s : List Char) : List Char → Option IP
  | [] => none
  | ch :: rest =>
    if ch = '.' then parseIPv4 s
    else if ch = ':' then parseIPv6 s
    else parseIPScan s rest

/-- The function `net.ParseIP`: the 16-byte address, or nil (`[]`) when `s` is not an address. -/
def ParseIP (s : String) : IP :=
  match parseIPScan s.toList s.toList with
  | none => []
  | some ip => ip

/-- The loop of `CIDRMask`: `l` bytes are still to be written, `n` ones are left. -/
def cidrMaskLoop : Nat → Nat → List Nat
  | 0, _ => []
  | l + 1, n =>
    if n ≥ 8 then 0xff :: cidrMaskLoop l (n - 8)
    else (0xff - (0xff >>> n)) :: cidrMaskLoop l 0

/-- The function `net.CIDRMask(ones, bits)`; nil (`[]`) for a bad width or count. -/
def CIDRMask (ones bits : Nat) : IPMask :=
  if bits ≠ 8 * IPv4len ∧ bits ≠ 8 * IPv6len then []
  else if ones > bits then []
  else cidrMaskLoop (bits / 8) ones

/-- The function `allFF`: every byte is `0xff`. -/
def allFF (b : List Nat) : Bool := b.all (fun c => c == 0xff)

/-- The function `isZeros`: every byte is 0. -/
def isZeros (p : List Nat) : Bool := p.all (fun c => c == 0)

/-- The method `IP.Mask(mask)`: the address masked, nil (`[]`) on a length mismatch. -/
def IPMaskApply (ip : IP) (mask : IPMask) : IP :=
  let mask1 :=
    if mask.length = IPv6len ∧ ip.length = IPv4len ∧ allFF (mask.take 12) then mask.drop 12
    else mask
  let ip1 :=
    if mask1.length = IPv4len ∧ ip.length = IPv6len ∧ ip.take 12 = v4InV6Prefix then ip.drop 12
    else ip
  if ip1.length ≠ mask1.length then []
  else List.zipWith (fun a b => a &&& b) ip1 mask1

/-- The method `IP.To4()`: the 4-byte form of an IPv4 address, nil (`[]`) otherwise. -/
def To4 (ip : IP) : IP :=
  if ip.length = IPv4len then ip
  else if ip.length = IPv6len ∧ isZeros (ip.take 10) ∧ ip.getD 10 0 = 0xff ∧ ip.getD 11 0 = 0xff then
    (ip.drop 12).take 4
  else []

/-- The function `networkNumberAndMask(n)`: nil pair (`([], [])`) for a malformed network. -/
def networkNumberAndMask (n : IPNet) : IP × IPMask :=
  let ip4 := To4 n.IP
  if ip4 = [] ∧ n.IP.length ≠ IPv6len then ([], [])
  else
    let ip := if ip4 = [] then n.IP else ip4
    if n.Mask.length = IPv4len then
      (if ip.length ≠ IPv4len then ([], []) else (ip, n.Mask))
    else if n.Mask.length = IPv6len then
      (if ip.length = IPv4len then (ip, n.Mask.drop 12) else (ip, n.Mask))
    else ([], [])

/-- The comparison loop of `Contains`, over the network number, the mask and the
address; `networkNumberAndMask` returns the first two with the same length, and
the loop is entered with an address of that length. -/
def containsLoop : List Nat → List Nat → List Nat → Bool
  | a :: nn, b :: m, c :: ip => if a &&& b ≠ c &&& b then false else containsLoop nn m ip
  | _, _, _ => true

/-- The method `(*IPNet).Contains(ip)` for a non-nil receiver. -/
def Contains (n : IPNet) (ip : IP) : Bool :=
  match networkNumberAndMask n with
  | (nn, m) =>
    let x := To4 ip
    let ip1 := if x ≠ [] then x else ip
    if ip1.length ≠ nn.length then false
    else containsLoop nn m ip1

/-- The index of the first `/` (`bytealg.IndexByteString(s, '/')`). -/
def indexSlash : List Char → Option Nat
  | [] => none
  | ch :: rest => if ch = '/' then some 0 else (indexSlash rest).map (· + 1)

/-- The function `net.ParseCIDR`, second result: the network, `none` being the nil pointer
returned together with a parse error. -/
def ParseCIDR (s : String) : Option IPNet :=
  match indexSlash s.toList with
  | none => none
  | some i =>
    let addr := s.toList.take i
    let mask := s.toList.drop (i + 1)
    let ip4 := parseIPv4 addr
    let iplen := if ip4.isSome then IPv4len else IPv6len
    let ip := if ip4.isSome then ip4 else parseIPv6 addr
    match ip, dtoi mask with
    | none, _ => none
    | some a, (n, j, ok) =>
      if !ok || j ≠ mask.length || n > 8 * iplen then none
      else
        let m := CIDRMask n (8 * iplen)
        some { IP := IPMaskApply a m, Mask := m }

/-! ## Part 2: `CloudServices` -/

/-- A run-time panic of the Go program. -/
inductive Fault where
  /-- A nil pointer dereference, as in `ipRange.Contains(ip)` with a nil `ipRange`. -/
  | nilPointer
  /-- The panic of `rand.Intn(n)` for `n <= 0` ("invalid argument to Intn"). -/
  | intnArgument
  /-- An index out of range. -/
  | indexOutOfRange
  /-- An explicit `panic(err)`. -/
  | panicErr
deriving DecidableEq, Repr

instance instDecidableEqExcept {ε α : Type} [DecidableEq ε] [DecidableEq α] :
    DecidableEq (Except ε α) := fun a b =>
  match a, b with
  | .ok x, .ok y => if h : x = y then isTrue (by rw [h]) else isFalse (fun e => h (by cases e; rfl))
  | .error x, .error y =>
    if h : x = y then isTrue (by rw [h]) else isFalse (fun e => h (by cases e; rfl))
  | .ok _, .error _ => isFalse (fun e => by cases e)
  | .error _, .ok _ => isFalse (fun e => by cases e)

/-- The struct `CloudService`. -/
structure CloudService where
  Name : String
  IPRange : List String
deriving DecidableEq, Repr

/-- The struct `CloudServices`. -/
structure CloudServices where
  Services : List CloudService
deriving DecidableEq, Repr

/-- The three results `(bool, string, error)` of `IsCloudIP`; a nil error is `none`. -/
structure Classification where
  isCloud : Bool
  service : String
  err : Option String
deriving DecidableEq, Repr

/-- The inner loop of `IsCloudIP` over one service's ranges: `some r` when the
loop returns `r`, `none` when it runs to its end.  The error of `net.ParseCIDR`
is discarded, so a range that does not parse leaves `ipRange` nil and
`ipRange.Contains(ip)` dereferences it. -/
def IsCloudIPRanges (name : String) (ip : IP) : List String → Except Fault (Option Classification)
  | [] => .ok none
  | rangeIP :: rest =>
    match ParseCIDR rangeIP with
    | none => .error Fault.nilPointer
    | some ipRange =>
      if Contains ipRange ip then .ok (some { isCloud := true, service := name, err := none })
      else IsCloudIPRanges name ip rest

/-- The outer loop of `IsCloudIP` over the services. -/
def IsCloudIPServices (ip : IP) : List CloudService → Except Fault Classification
  | [] => .ok { isCloud := false, service := "", err := none }
  | service :: rest =>
    match IsCloudIPRanges service.Name ip service.IPRange with
    | .error f => .error f
    | .ok (some r) => .ok r
    | .ok none => IsCloudIPServices ip rest

/-- The method `(c *CloudServices) IsCloudIP(ip net.IP) (bool, string, error)`. -/
def IsCloudIP (c : CloudServices) (ip : IP) : Except Fault Classification :=
  IsCloudIPServices ip c.Services

/-- What opening, reading and decoding `ip-ranges.json` comes to.  The file
system and `json.Unmarshal` are outside the program: `decoded t` says that the
file was read and that `json.Unmarshal(data, c)` left the table `t` in `c`. -/
inductive FileOutcome where
  | openError
  | readError
  | unmarshalError
  | decoded (t : CloudServices)

/-- The method `(c *CloudServices) ReadCloudServices() (CloudServices, error)`:
each of the three errors panics, otherwise `*c` is returned with a nil error. -/
def ReadCloudServices (file : FileOutcome) : Except Fault (CloudServices × Option String) :=
  match file with
  | .openError => .error Fault.panicErr
  | .readError => .error Fault.panicErr
  | .unmarshalError => .error Fault.panicErr
  | .decoded t => .ok (t, none)

/-- One entry of `prefixes` or `ipv6_prefixes` of the AWS feed. -/
structure AWSPrefix where
  IPPrefix : String
  Region : String
  Service : String

/-- The local type `AWSIPRanges`. -/
structure AWSIPRanges where
  SyncToken : String
  CreateDate : String
  Prefixes : List AWSPrefix
  Ipv6Prefixes : List AWSPrefix

/-- The field `properties` of an Azure value. -/
structure AzureProperties where
  AddressPrefixes : List String
  Platform : String

/-- One entry of `values` of the Azure feed. -/
structure AzureValue where
  Name : String
  ID : String
  Location : String
  Properties : AzureProperties

/-- The local type `AzureIPRanges`. -/
structure AzureIPRanges where
  Values : List AzureValue

/-- A response body `res.Body`, by what each reader used in the switch gets out
of it: the two JSON decodings (`none` when `Decode` returns an error) and the
tokens of a `bufio.Scanner` splitting on lines. -/
structure ResponseBody where
  awsJSON : Option AWSIPRanges
  azureJSON : Option AzureIPRanges
  lines : List String

/-- The statement `switch name { ... }` of `UpdateCloudServices`, as a function
from `c.Services` before it to `c.Services` after it.  A Go `case` does not
fall through: the body of `case "Cloudflare":` is empty. -/
def feedSwitch (name : String) (body : ResponseBody) (services : List CloudService) :
    Except Fault (List CloudService) :=
  if name = "AWS" then
    match body.awsJSON with
    | none => .error Fault.panicErr
    | some aws =>
      let ipv4 := aws.Prefixes.map (fun p => p.IPPrefix)
      let services1 := services ++ [{ Name := name, IPRange := ipv4 }]
      let ipv6 := aws.Ipv6Prefixes.map (fun p => p.IPPrefix)
      .ok (services1 ++ [{ Name := name, IPRange := ipv6 }])
  else if name = "Cloudflare" then .ok services
  else if name = "Cloudflare6" then .ok (services ++ [{ Name := name, IPRange := body.lines }])
  else if name = "Azure" then
    match body.azureJSON with
    | none => .error Fault.panicErr
    | some azure =>
      .ok (services ++ azure.Values.map
        (fun v => { Name := name, IPRange := v.Properties.AddressPrefixes }))
  else .ok services

/-- The body of one feed's task: `http.Get` (`none` when it returns an error,
which panics), then the switch. -/
def feedTask (name : String) (res : Option ResponseBody) (services : List CloudService) :
    Except Fault (List CloudService) :=
  match res with
  | none => .error Fault.panicErr
  | some body => feedSwitch name body services

/-- The feed tasks run one after the other in some order of the map `urls`. -/
def runFeeds : List (String × Option ResponseBody) → List CloudService →
    Except Fault (List CloudService)
  | [], services => .ok services
  | (name, res) :: rest, services =>
    match feedTask name res services with
    | .error f => .error f
    | .ok services1 => runFeeds rest services1

/-! ## Part 3: the dispatch loop of `main` -/

/-- The struct `DNSLookup`. -/
structure DNSLookup where
  DomainName : String
  Nameserver : String
  IPAddrs : List String
deriving DecidableEq, Repr

/-- The network, as `r.LookupHost` sees it through a resolver pinned to a
nameserver: from the nameserver and the domain name to the addresses and the
error (`none` when nil). -/
abbrev Resolver := String → String → List String × Option String

/-- The method `(dns *DNSLookup) DoLookup() (*DNSLookup, error)`. -/
def DoLookup (lookupHost : Resolver) (dns : DNSLookup) : DNSLookup × Option String :=
  match lookupHost dns.Nameserver dns.DomainName with
  | (addrs, err) => ({ dns with IPAddrs := addrs }, err)

/-- White space in the sense of `unicode.IsSpace`. -/
def isSpace (ch : Char) : Bool :=
  let n := ch.toNat
  (9 ≤ n && n ≤ 13) || n == 0x20 || n == 0x85 || n == 0xA0 || n == 0x1680 ||
    (0x2000 ≤ n && n ≤ 0x200a) || n == 0x2028 || n == 0x2029 || n == 0x202f ||
    n == 0x205f || n == 0x3000

/-- The function `strings.TrimSpace`. -/
def TrimSpace (s : String) : String :=
  String.mk ((s.toList.dropWhile isSpace).reverse.dropWhile isSpace).reverse

/-- The function `rand.Intn(n)` on a source whose next output is `raw`: it panics
for `n <= 0` and otherwise returns a number in `[0, n)`. -/
def Intn (raw n : Nat) : Except Fault Nat :=
  if n = 0 then .error Fault.intnArgument else .ok (raw % n)

/-- The expression `nameservers[rand.Intn(len(nameservers))]`. -/
def selectNameserver (nameservers : List String) (raw : Nat) : Except Fault String :=
  match Intn raw nameservers.length with
  | .error f => .error f
  | .ok i =>
    match nameservers.get? i with
    | none => .error Fault.indexOutOfRange
    | some ns => .ok ns

/-- A line written to standard output, by the statement that writes it. -/
inductive OutputLine where
  /-- The statement `fmt.Println(err)`. -/
  | failureNotice (err : String)
  /-- The statement `green.Printf("[+] Is Cloud Service: %t | Service: %s | IP: %s | Domain: %s\n", ...)`. -/
  | cloudLine (service ip domain : String)
  /-- The statement `red.Printf("[-] Is Cloud Service: %t | IP: %s | Domain: %s\n", ...)`. -/
  | notCloudLine (ip domain : String)
deriving DecidableEq, Repr

/-- Whether the line is one of the two classification lines. -/
def OutputLine.isClassification : OutputLine → Bool
  | .failureNotice _ => false
  | .cloudLine _ _ _ => true
  | .notCloudLine _ _ => true

/-- What a piece of code does: the lines it writes, in order, and the panic
that ends it, if any. -/
structure Trace where
  out : List OutputLine
  fault : Option Fault
deriving DecidableEq, Repr

/-- The line written for one address once `IsCloudIP` has returned. -/
def classificationLine (r : Classification) (ip domain : String) : OutputLine :=
  match r.err with
  | some e => .failureNotice e
  | none => if r.isCloud then .cloudLine r.service ip domain else .notCloudLine ip domain

/-- The loop `for _, ip := range res.IPAddrs` of the goroutine. -/
def classifyAddrs (cloud : CloudServices) (domain : String) : List String → Trace
  | [] => { out := [], fault := none }
  | ip :: rest =>
    match IsCloudIP cloud (ParseIP ip) with
    | .error f => { out := [], fault := some f }
    | .ok r =>
      let t := classifyAddrs cloud domain rest
      { out := classificationLine r ip domain :: t.out, fault := t.fault }

/-- A scanned line of the domain file, with the output of the shared random
source that the line's goroutine gets in its call of `rand.Intn`. -/
structure Job where
  domain : String
  draw : Nat
deriving DecidableEq, Repr

/-- The body of the goroutine `go func(domain string) { ... }`. -/
def goroutine (cloud : CloudServices) (nameservers : List String) (lookupHost : Resolver)
    (j : Job) : Trace :=
  match selectNameserver nameservers j.draw with
  | .error f => { out := [], fault := some f }
  | .ok ns =>
    match DoLookup lookupHost { DomainName := TrimSpace j.domain, Nameserver := ns, IPAddrs := [] } with
    | (_, some err) => { out := [.failureNotice err], fault := none }
    | (res, none) => classifyAddrs cloud j.domain res.IPAddrs

/-- One trace after the other: the second runs only if the first did not panic. -/
def Trace.andThen (t1 t2 : Trace) : Trace :=
  match t1.fault with
  | some f => { out := t1.out, fault := some f }
  | none => { out := t1.out ++ t2.out, fault := t2.fault }

/-- The goroutines of a batch run one after the other, in the order of the lines. -/
def runBatch (cloud : CloudServices) (nameservers : List String) (lookupHost : Resolver) :
    List Job → Trace
  | [] => { out := [], fault := none }
  | j :: rest =>
    (goroutine cloud nameservers lookupHost j).andThen (runBatch cloud nameservers lookupHost rest)

/-- Where the main goroutine stands in the loop `for dfScanner.Scan() { ... }`. -/
inductive MainPC where
  /-- At the loop head, about to call `dfScanner.Scan()`. -/
  | scan
  /-- After `wg.Add(1)`, about to run the `go` statement for this line. -/
  | spawn (j : Job)
  /-- In `wg.Wait()`. -/
  | wait
  /-- The loop is over and `main` has returned. -/
  | exited
deriving DecidableEq, Repr

/-- The state of the process during the dispatch loop. -/
structure ProcState where
  /-- The lines of the domain file not scanned yet. -/
  pending : List Job
  pc : MainPC
  /-- The counter of the wait group `wg`. -/
  wg : Nat
  /-- The live goroutines, each by what it has still to do. -/
  live : List Trace
  /-- The lines written so far. -/
  out : List OutputLine
  /-- The panic that ended the process, if any. -/
  crashed : Option Fault

/-- The state in which the dispatch loop starts. -/
def ProcState.init (jobs : List Job) : ProcState :=
  { pending := jobs, pc := .scan, wg := 0, live := [], out := [], crashed := none }

/-- One step of the process: of the main goroutine or of any live goroutine. -/
inductive Step (cloud : CloudServices) (nameservers : List String) (lookupHost : Resolver) :
    ProcState → ProcState → Prop where
  /-- The call `dfScanner.Scan()` returns true, then `wg.Add(1)`. -/
  | scanNext (s : ProcState) (j : Job) (rest : List Job) :
      s.crashed = none → s.pc = .scan → s.pending = j :: rest →
      Step cloud nameservers lookupHost s { s with pending := rest, pc := .spawn j, wg := s.wg + 1 }
  /-- The call `dfScanner.Scan()` returns false: the loop ends and `main` returns. -/
  | scanEnd (s : ProcState) :
      s.crashed = none → s.pc = .scan → s.pending = [] →
      Step cloud nameservers lookupHost s { s with pc := .exited }
  /-- The `go` statement starts the goroutine of the line. -/
  | go (s : ProcState) (j : Job) :
      s.crashed = none → s.pc = .spawn j →
      Step cloud nameservers lookupHost s
        { s with pc := .wait, live := s.live ++ [goroutine cloud nameservers lookupHost j] }
  /-- The call `wg.Wait()` returns, the counter being zero. -/
  | waitReturn (s : ProcState) :
      s.crashed = none → s.pc = .wait → s.wg = 0 →
      Step cloud nameservers lookupHost s { s with pc := .scan }
  /-- A live goroutine writes its next line. -/
  | print (s : ProcState) (before after : List Trace) (g : Trace) (x : OutputLine)
      (xs : List OutputLine) :
      s.crashed = none → s.pc ≠ .exited → s.live = before ++ g :: after → g.out = x :: xs →
      Step cloud nameservers lookupHost s
        { s with live := before ++ { out := xs, fault := g.fault } :: after, out := s.out ++ [x] }
  /-- A live goroutine returns: the deferred `wg.Done()` runs. -/
  | done (s : ProcState) (before after : List Trace) (g : Trace) :
      s.crashed = none → s.pc ≠ .exited → s.live = before ++ g :: after → g.out = [] →
      g.fault = none →
      Step cloud nameservers lookupHost s { s with live := before ++ after, wg := s.wg - 1 }
  /-- A live goroutine panics: the process ends. -/
  | panic (s : ProcState) (before after : List Trace) (g : Trace) (f : Fault) :
      s.crashed = none → s.pc ≠ .exited → s.live = before ++ g :: after → g.out = [] →
      g.fault = some f →
      Step cloud nameservers lookupHost s { s with live := before ++ after, crashed := some f }

/-- The states the process can be in after some steps from `s`. -/
inductive Reaches (cloud : CloudServices) (nameservers : List String) (lookupHost : Resolver) :
    ProcState → ProcState → Prop where
  | refl (s : ProcState) : Reaches cloud nameservers lookupHost s s
  | tail (s t u : ProcState) : Reaches cloud nameservers lookupHost s t →
      Step cloud nameservers lookupHost t u → Reaches cloud nameservers lookupHost s u

/-- The process has ended: `main` returned or a goroutine panicked. -/
def ProcState.ended (s : ProcState) : Prop := s.pc = .exited ∨ s.crashed ≠ none

/-! ## Specification-side notions -/

/-- Every element is a byte. -/
def IsBytes (l : List Nat) : Prop := ∀ b ∈ l, b < 256

/-- A valid address value: 4 or 16 bytes. -/
def ValidIP (ip : IP) : Prop := (ip.length = 4 ∨ ip.length = 16) ∧ IsBytes ip

/-- Every range string of every service parses as a CIDR block. -/
def AllRangesParse (c : CloudServices) : Prop :=
  ∀ svc ∈ c.Services, ∀ r ∈ svc.IPRange, (ParseCIDR r).isSome = true

/-- The number a byte string denotes, most significant byte first. -/
def ipVal : List Nat → Nat
  | [] => 0
  | b :: bs => b * 256 ^ bs.length + ipVal bs

/-- The number of one bits of a byte. -/
def byteOnes (b : Nat) : Nat := ((List.range 8).filter (fun j => b.testBit j)).length

/-- The number of one bits of a mask: the prefix length of a CIDR mask. -/
def onesCount (m : IPMask) : Nat := (m.map byteOnes).sum

/-- The top `prefixLen` bits of the `bits`-bit numbers `a` and `b` are equal. -/
def prefixEq (bits prefixLen a b : Nat) : Prop :=
  a / 2 ^ (bits - prefixLen) = b / 2 ^ (bits - prefixLen)

instance (bits prefixLen a b : Nat) : Decidable (prefixEq bits prefixLen a b) := by
  unfold prefixEq; infer_instance

/-- Prefix containment on the addresses as written: a block of 4-byte width
holds the IPv4 addresses (in either form) whose top bits are its network bits,
a block of 16-byte width the 16-byte addresses whose top bits are its network
bits. -/
def StdContains (n : IPNet) (ip : IP) : Prop :=
  (n.IP.length = 4 ∧ (To4 ip).length = 4 ∧
      prefixEq 32 (onesCount n.Mask) (ipVal (To4 ip)) (ipVal n.IP)) ∨
  (n.IP.length = 16 ∧ ip.length = 16 ∧
      prefixEq 128 (onesCount n.Mask) (ipVal ip) (ipVal n.IP))

instance (n : IPNet) (ip : IP) : Decidable (StdContains n ip) := by
  unfold StdContains; infer_instance

/-- The canonical form of an address value: the 4-byte form of an IPv4 address
(also one given in the 16-byte form `::ffff:a.b.c.d`), else the value itself. -/
def canon (ip : IP) : IP := if To4 ip ≠ [] then To4 ip else ip

/-- The prefix length of a block over the canonical form of its network: a
block whose network is IPv4 in 16-byte form has a 16-byte mask, of which the
first 96 bits cover the fixed prefix. -/
def canonPrefixLen (n : IPNet) : Nat :=
  onesCount n.Mask - (8 * n.Mask.length - 8 * (canon n.IP).length)

/-- Prefix containment on canonical forms: the address and the block's network
have the same canonical width and the top `canonPrefixLen` bits of the address
are the network bits. -/
def CanonContains (n : IPNet) (ip : IP) : Prop :=
  (canon ip).length = (canon n.IP).length ∧
    prefixEq (8 * (canon n.IP).length) (canonPrefixLen n) (ipVal (canon ip)) (ipVal (canon n.IP))

instance (n : IPNet) (ip : IP) : Decidable (CanonContains n ip) := by
  unfold CanonContains; infer_instance

/-- A 16-byte array of bytes. -/
def Bytes16 (l : List Nat) : Prop := l.length = 16 ∧ IsBytes l

/-- What `net.ParseCIDR` returns: an address of 4 or 16 bytes masked by the
mask of a prefix length within its width, and that mask. -/
def ParsedShape (n : IPNet) : Prop :=
  ∃ l p ip, (l = 4 ∨ l = 16) ∧ List.length ip = l ∧ IsBytes ip ∧ p ≤ 8 * l ∧
    n = { IP := List.zipWith (fun a b => a &&& b) ip (cidrMaskLoop l p), Mask := cidrMaskLoop l p }

/-- The facts about the network number and mask of a parsed block that the
containment test uses. -/
structure NetworkFacts (n : IPNet) (p : Nat) : Prop where
  width : (canon n.IP).length = 4 ∨ (canon n.IP).length = 16
  bytes : IsBytes (canon n.IP)
  le : p ≤ 8 * (canon n.IP).length
  nnm : networkNumberAndMask n = (canon n.IP, cidrMaskLoop (canon n.IP).length p)
  prefixLen : canonPrefixLen n = p
  aligned : ipVal (canon n.IP) % 2 ^ (8 * (canon n.IP).length - p) = 0

/-- Some range of the service is a block that holds the address under prefix
containment on canonical forms. -/
def ServiceContains (svc : CloudService) (ip : IP) : Prop :=
  ∃ r ∈ svc.IPRange, ∃ n, ParseCIDR r = some n ∧ CanonContains n ip

/-- Some range of the service parses to a network for which the containment test
`(*IPNet).Contains` of the classifier answers true on the address. -/
def ServiceHolds (svc : CloudService) (ip : IP) : Prop :=
  ∃ r ∈ svc.IPRange, ∃ n, ParseCIDR r = some n ∧ Contains n ip = true

/-- The scenario table of the specification: `{"AWS": ["3.0.0.0/8"]}`. -/
def awsTable : CloudServices := { Services := [{ Name := "AWS", IPRange := ["3.0.0.0/8"] }] }

/-- A table holding the single IPv6 block `::/0`. -/
def allV6Table : CloudServices := { Services := [{ Name := "X", IPRange := ["::/0"] }] }

/-- A table holding the single IPv6 block `::ff00:0:0/88`. -/
def lastBlockTable : CloudServices :=
  { Services := [{ Name := "X", IPRange := ["::ff00:0:0/88"] }] }

/-- A table with the IPv6 block `::/0` in its first service and the IPv4 block
`3.0.0.0/8` in its second. -/
def mixedTable : CloudServices :=
  { Services := [{ Name := "V6", IPRange := ["::/0"] },
                 { Name := "AWS", IPRange := ["3.0.0.0/8"] }] }

/-- Some range of the service is a block that holds the address under prefix
containment on the addresses as written. -/
def ServiceStdContains (svc : CloudService) (ip : IP) : Prop :=
  ∃ r ∈ svc.IPRange, ∃ n, ParseCIDR r = some n ∧ StdContains n ip

/-- A table holding one range string that is no CIDR block. -/
def badTable : CloudServices := { Services := [{ Name := "X", IPRange := ["not-a-cidr"] }] }

instance (l : List Nat) : Decidable (IsBytes l) := by
  unfold IsBytes; infer_instance

instance (ip : IP) : Decidable (ValidIP ip) := by
  unfold ValidIP; infer_instance

instance (c : CloudServices) : Decidable (AllRangesParse c) := by
  unfold AllRangesParse; infer_instance

/-! ## Notions for the dispatch loop -/

/-- The line that the classification loop writes for an address: `none` when
`IsCloudIP` faults on it. -/
def addrLine (cloud : CloudServices) (domain ip : String) : Option OutputLine :=
  match IsCloudIP cloud (ParseIP ip) with
  | .ok r => some (classificationLine r ip domain)
  | .error _ => none

/-- A resolver that answers every lookup with the empty address list and no error. -/
def emptyResolver : Resolver := fun _ _ => ([], none)

/-- A resolver that answers every lookup with the address `3.5.5.5`. -/
def awsResolver : Resolver := fun _ _ => (["3.5.5.5"], none)

/-- A resolver that fails for the domain `bad.test` and answers `3.5.5.5` otherwise. -/
def flakyResolver : Resolver := fun _ domain =>
  if domain = "bad.test" then ([], some "lookup bad.test: i/o timeout") else (["3.5.5.5"], none)

/-- What the live goroutines have still to do, one after the other. -/
def liveTrace : List Trace → Trace
  | [] => { out := [], fault := none }
  | g :: rest => g.andThen (liveTrace rest)

/-- What the process has written and will still write, and how it ends, were
it to go on from `s` one goroutine after the other. -/
def ProcState.final (cloud : CloudServices) (nameservers : List String) (lookupHost : Resolver)
    (s : ProcState) : Trace :=
  match s.crashed with
  | some f => { out := s.out, fault := some f }
  | none =>
    Trace.andThen { out := s.out, fault := none }
      (match s.pc with
        | .scan => runBatch cloud nameservers lookupHost s.pending
        | .spawn j =>
          (goroutine cloud nameservers lookupHost j).andThen
            (runBatch cloud nameservers lookupHost s.pending)
        | .wait => (liveTrace s.live).andThen (runBatch cloud nameservers lookupHost s.pending)
        | .exited => { out := [], fault := none })

/-- The invariant of the dispatch loop: at most one goroutine is live, and the
wait group counts it. -/
def ProcState.Inv (s : ProcState) : Prop :=
  s.live.length ≤ 1 ∧
  (s.crashed = none →
    (s.pc = .scan ∧ s.live = [] ∧ s.wg = 0) ∨
    (∃ j, s.pc = .spawn j ∧ s.live = [] ∧ s.wg = 1) ∨
    (s.pc = .wait ∧ s.live = [] ∧ s.wg = 0) ∨
    (s.pc = .wait ∧ (∃ g, s.live = [g]) ∧ s.wg = 1) ∨
    (s.pc = .exited ∧ s.live = [] ∧ s.pending = []))

/-- A bound on the number of steps the process can still take. -/
def ProcState.measure (cloud : CloudServices) (nameservers : List String) (lookupHost : Resolver)
    (s : ProcState) : Nat :=
  match s.crashed with
  | some _ => 0
  | none =>
    (s.pending.map (fun j => (goroutine cloud nameservers lookupHost j).out.length + 5)).sum +
      (match s.pc with
        | .scan => 1
        | .spawn j => (goroutine cloud nameservers lookupHost j).out.length + 4
        | .wait => 2
        | .exited => 0) +
      (s.live.map (fun g => g.out.length + 1)).sum + 1

/-! ## Example inputs -/

/-- The three lines of the batch used as an example: the second domain fails. -/
def sampleJobs : List Job :=
  [{ domain := "a.test", draw := 0 }, { domain := "bad.test", draw := 1 },
   { domain := "b.test", draw := 2 }]

/-! # Theorems -/

/-! ## Bytes and the parsers -/

theorem IsBytes.setByte {l : List Nat} (h : IsBytes l) (i v : Nat) (hv : v < 256) :
    IsBytes (l.set i v) := by
  intro b hb
  rcases List.mem_or_eq_of_mem_set hb with hb | hb
  · exact h b hb
  · omega

theorem IsBytes.getD {l : List Nat} (h : IsBytes l) (i : Nat) : l.getD i 0 < 256 := by
  rw [List.getD_eq_getElem?_getD]
  cases hi : l[i]? with
  | none => simp
  | some v =>
    simp only [Option.getD_some]
    exact h v (List.getElem?_mem hi)

theorem parseIPv4Loop_bytes (k : Nat) : ∀ (i : Nat) (s : List Char) (p p1 : List Nat)
    (r : List Char), parseIPv4Loop k i s p = some (p1, r) → IsBytes p → IsBytes p1 := by
  induction k with
  | zero =>
    intro i s p p1 r h hp
    simp only [parseIPv4Loop, Option.some.injEq, Prod.mk.injEq] at h
    rw [← h.1]; exact hp
  | succ k ih =>
    intro i s p p1 r h hp
    unfold parseIPv4Loop at h
    split at h
    · cases h
    · dsimp only at h
      generalize (if i > 0 then (if s.head? ≠ some '.' then none else some (s.drop 1))
        else some s) = ad at h
      cases ad with
      | none => cases h
      | some s1 =>
        dsimp only at h
        rcases hd : dtoi s1 with ⟨n, c, ok⟩
        rw [hd] at h
        dsimp only at h
        split_ifs at h
        exact ih _ _ _ _ _ h (hp.setByte _ _ (Nat.mod_lt _ (by decide)))

/-- An address read by `parseIPv4` is `IPv4 a b c d` for four bytes. -/
theorem parseIPv4_shape (s : List Char) (ip : IP) (h : parseIPv4 s = some ip) :
    ∃ a b c d, a < 256 ∧ b < 256 ∧ c < 256 ∧ d < 256 ∧ ip = IPv4 a b c d := by
  unfold parseIPv4 at h
  split at h
  · cases h
  · rename_i p rest hloop
    split at h
    · cases h
    · have hp : IsBytes p := parseIPv4Loop_bytes _ _ _ _ _ _ hloop (by intro b hb; simp at hb; omega)
      simp only [Option.some.injEq] at h
      exact ⟨_, _, _, _, hp.getD 0, hp.getD 1, hp.getD 2, hp.getD 3, h.symm⟩

theorem Bytes16.setByte16 {l : List Nat} (h : Bytes16 l) (i v : Nat) (hv : v < 256) :
    Bytes16 (l.set i v) :=
  ⟨by rw [List.length_set]; exact h.1, h.2.setByte i v hv⟩

theorem expandShift_bytes (n e : Nat) : ∀ (k : Nat) (ip : List Nat),
    Bytes16 ip → Bytes16 (expandShift n e k ip) := by
  intro k
  induction k with
  | zero => intro ip h; exact h
  | succ j ih =>
    intro ip h
    unfold expandShift
    split_ifs
    · exact ih _ (h.setByte16 _ _ (h.2.getD j))
    · exact h

theorem expandZero_bytes (e : Nat) : ∀ (k : Nat) (ip : List Nat),
    Bytes16 ip → Bytes16 (expandZero e k ip) := by
  intro k
  induction k with
  | zero => intro ip h; exact h
  | succ j ih =>
    intro ip h
    unfold expandZero
    split_ifs
    · exact ih _ (h.setByte16 _ _ (by decide))
    · exact h

theorem parseIPv6Loop_bytes (f : Nat) : ∀ (st st1 : V6State),
    parseIPv6Loop f st = some st1 → Bytes16 st.ip → Bytes16 st1.ip := by
  induction f with
  | zero =>
    intro st st1 h hb
    simp only [parseIPv6Loop, Option.some.injEq] at h
    rw [← h]; exact hb
  | succ f ih =>
    intro st st1 h hb
    unfold parseIPv6Loop at h
    split at h
    · simp only [Option.some.injEq] at h
      rw [← h]; exact hb
    · rcases hx : xtoi st.s with ⟨n, c, ok⟩
      rw [hx] at h
      dsimp only at h
      have hlo : n % 256 < 256 := Nat.mod_lt _ (by decide)
      have hhi : (n >>> 8) % 256 < 256 := Nat.mod_lt _ (by decide)
      have hb1 : Bytes16 ((st.ip.set st.i ((n >>> 8) % 256)).set (st.i + 1) (n % 256)) :=
        (hb.setByte16 _ _ hhi).setByte16 _ _ hlo
      split_ifs at h
      · split at h
        · cases h
        · rename_i ip4 h4
          obtain ⟨a, b, c1, d, ha, hbb, hc, hd, rfl⟩ := parseIPv4_shape _ _ h4
          simp only [Option.some.injEq] at h
          rw [← h]
          exact (((hb.setByte16 _ _ (by simpa [IPv4, v4InV6Prefix] using ha)).setByte16 _ _
            (by simpa [IPv4, v4InV6Prefix] using hbb)).setByte16 _ _
            (by simpa [IPv4, v4InV6Prefix] using hc)).setByte16 _ _
            (by simpa [IPv4, v4InV6Prefix] using hd)
      · simp only [Option.some.injEq] at h
        rw [← h]; exact hb1
      · simp only [Option.some.injEq] at h
        rw [← h]; exact hb1
      · exact ih _ _ h hb1
      · exact ih _ _ h hb1

/-- An address read by `parseIPv6` has 16 bytes. -/
theorem parseIPv6_bytes (s : List Char) (ip : IP) (h : parseIPv6 s = some ip) : Bytes16 ip := by
  have h0 : Bytes16 (List.replicate IPv6len 0) := by
    refine ⟨by simp [IPv6len], ?_⟩
    intro b hb
    rw [List.mem_replicate] at hb
    omega
  unfold parseIPv6 at h
  dsimp only at h
  split_ifs at h
  all_goals first
    | (simp only [Option.some.injEq] at h
       rw [← h]; exact h0)
    | (split at h
       · cases h
       · rename_i st hst
         have hb := parseIPv6Loop_bytes _ _ _ hst h0
         split_ifs at h
         all_goals
           simp only [Option.some.injEq] at h
           rw [← h]
           first
             | exact hb
             | exact expandZero_bytes _ _ _ (expandShift_bytes _ _ _ _ hb))

/-! ## Masks -/

theorem cidrMaskLoop_length : ∀ (l n : Nat), (cidrMaskLoop l n).length = l := by
  intro l
  induction l with
  | zero => intro n; rfl
  | succ l ih =>
    intro n
    unfold cidrMaskLoop
    split_ifs <;> simp [ih]

theorem cidrMaskLoop_ge : ∀ (k l n : Nat), 8 * k ≤ n →
    cidrMaskLoop (k + l) n = List.replicate k 0xff ++ cidrMaskLoop l (n - 8 * k) := by
  intro k
  induction k with
  | zero => intro l n _; simp
  | succ k ih =>
    intro l n h
    have e : k + 1 + l = (k + l) + 1 := by omega
    rw [e, cidrMaskLoop, if_pos (by omega), ih l (n - 8) (by omega), List.replicate_succ]
    have e2 : n - 8 - 8 * k = n - 8 * (k + 1) := by omega
    rw [e2]; rfl

theorem lastMask_lt : ∀ n < 8, 0xff - (0xff >>> n) < 0xff := by decide

theorem byteOnes_lastMask : ∀ n < 8, byteOnes (0xff - (0xff >>> n)) = n := by decide

theorem onesCount_cidrMaskLoop : ∀ (l n : Nat), n ≤ 8 * l → onesCount (cidrMaskLoop l n) = n := by
  intro l
  induction l with
  | zero => intro n h; simp [cidrMaskLoop, onesCount]; omega
  | succ l ih =>
    intro n h
    unfold cidrMaskLoop
    split_ifs with h8
    · have := ih (n - 8) (by omega)
      simp only [onesCount, List.map_cons, List.sum_cons] at this ⊢
      rw [this]
      have : byteOnes 0xff = 8 := by decide
      omega
    · have h0 := ih 0 (by omega)
      simp only [onesCount, List.map_cons, List.sum_cons] at h0 ⊢
      rw [h0, byteOnes_lastMask n (by omega)]
      rfl

theorem ParseCIDR_shape (s : String) (n : IPNet) (h : ParseCIDR s = some n) : ParsedShape n := by
  unfold ParseCIDR at h
  split at h
  · cases h
  · rename_i i hi
    dsimp only at h
    cases h4 : parseIPv4 (List.take i s.toList) with
    | some a =>
      rw [h4] at h
      simp only [Option.isSome_some, if_true] at h
      rcases hd : dtoi (List.drop (i + 1) s.toList) with ⟨p, j, ok⟩
      rw [hd] at h
      dsimp only at h
      split_ifs at h with hc
      simp only [Bool.or_eq_true, Bool.not_eq_true', decide_eq_true_eq, not_or] at hc
      obtain ⟨a0, b0, c0, d0, ha, hb, hcc, hdd, rfl⟩ := parseIPv4_shape _ _ h4
      have hp : p ≤ 32 := by simp only [IPv4len] at hc; omega
      have hm : CIDRMask p (8 * IPv4len) = cidrMaskLoop 4 p := by
        unfold CIDRMask
        simp only [IPv4len, IPv6len]
        rw [if_neg (by omega), if_neg (by omega)]
      refine ⟨4, p, [a0, b0, c0, d0], Or.inl rfl, rfl, ?_, hp, ?_⟩
      · intro x hx
        simp only [List.mem_cons, List.mem_singleton, List.not_mem_nil, or_false] at hx
        rcases hx with rfl | rfl | rfl | rfl <;> assumption
      · simp only [Option.some.injEq] at h
        rw [← h, hm]
        have hl := cidrMaskLoop_length 4 p
        simp [IPMaskApply, IPv4, v4InV6Prefix, IPv4len, IPv6len, hl]
    | none =>
      rw [h4] at h
      simp only [Option.isSome_none, Bool.false_eq_true, if_false] at h
      cases h6 : parseIPv6 (List.take i s.toList) with
      | none => rw [h6] at h; simp at h
      | some a =>
        rw [h6] at h
        rcases hd : dtoi (List.drop (i + 1) s.toList) with ⟨p, j, ok⟩
        rw [hd] at h
        dsimp only at h
        split_ifs at h with hc
        simp only [Bool.or_eq_true, Bool.not_eq_true', decide_eq_true_eq, not_or] at hc
        have hb16 := parseIPv6_bytes _ _ h6
        have hp : p ≤ 128 := by simp only [IPv6len] at hc; omega
        have hm : CIDRMask p (8 * IPv6len) = cidrMaskLoop 16 p := by
          unfold CIDRMask
          simp only [IPv4len, IPv6len]
          rw [if_neg (by omega), if_neg (by omega)]
        refine ⟨16, p, a, Or.inr rfl, hb16.1, hb16.2, hp, ?_⟩
        simp only [Option.some.injEq] at h
        rw [← h, hm]
        have hl := cidrMaskLoop_length 16 p
        simp [IPMaskApply, IPv4len, IPv6len, hl, hb16.1]

/-! ## Byte-wise masking and numeric prefixes -/

set_option maxRecDepth 100000 in
theorem byte_and_ff : ∀ a < 256, a &&& 0xff = a := by decide

set_option maxRecDepth 100000 in
theorem byte_and_lastMask :
    ∀ n < 8, ∀ a < 256, a &&& (0xff - (0xff >>> n)) = a / 2 ^ (8 - n) * 2 ^ (8 - n) := by
  decide

theorem ipVal_lt : ∀ (l : List Nat), IsBytes l → ipVal l < 256 ^ l.length := by
  intro l
  induction l with
  | nil => intro _; simp [ipVal]
  | cons b bs ih =>
    intro h
    have hb : b < 256 := h b (List.mem_cons_self _ _)
    have hbs : ipVal bs < 256 ^ bs.length := ih (fun x hx => h x (List.mem_cons_of_mem _ hx))
    simp only [ipVal, List.length_cons, pow_succ]
    nlinarith

theorem pow256_split (l k : Nat) (h : k ≤ 8 * l) : 256 ^ l = 2 ^ (8 * l - k) * 2 ^ k := by
  rw [← pow_add, show (256 : Nat) = 2 ^ 8 from rfl, ← pow_mul]
  congr 1
  omega

theorem div_split (M K c a v w : Nat) (hK : 0 < K) (hM : 0 < M) (hv : v < M * K)
    (hw : w < M * K) :
    (c * (M * K) + v) / K = (a * (M * K) + w) / K ↔ c = a ∧ v / K = w / K := by
  have e1 : (c * (M * K) + v) / K = v / K + c * M := by
    rw [show c * (M * K) + v = v + (c * M) * K by ring, Nat.add_mul_div_right _ _ hK]
  have e2 : (a * (M * K) + w) / K = w / K + a * M := by
    rw [show a * (M * K) + w = w + (a * M) * K by ring, Nat.add_mul_div_right _ _ hK]
  have hx : v / K < M := Nat.div_lt_of_lt_mul (by rw [Nat.mul_comm]; exact hv)
  have hy : w / K < M := Nat.div_lt_of_lt_mul (by rw [Nat.mul_comm]; exact hw)
  rw [e1, e2]
  constructor
  · intro h
    have hmod := congrArg (· % M) h
    simp only [Nat.add_mul_mod_self_right, Nat.mod_eq_of_lt hx, Nat.mod_eq_of_lt hy] at hmod
    refine ⟨?_, hmod⟩
    rw [hmod] at h
    exact Nat.eq_of_mul_eq_mul_right hM (Nat.add_left_cancel h)
  · rintro ⟨rfl, h⟩
    rw [h]

theorem div_high (X c v j : Nat) (hX : 0 < X) (hv : v < X) :
    (c * X + v) / (X * 2 ^ j) = c / 2 ^ j := by
  rw [← Nat.div_div_eq_div_mul]
  congr 1
  rw [show c * X + v = v + c * X by ring, Nat.add_mul_div_right _ _ hX, Nat.div_eq_of_lt hv]
  simp

/-- The comparison loop of `Contains` under the mask of prefix length `p` is
the equality of the top `p` bits of the two numbers. -/
theorem containsLoop_iff : ∀ (l p : Nat) (nn ip : List Nat), nn.length = l → ip.length = l →
    IsBytes nn → IsBytes ip → p ≤ 8 * l →
    (containsLoop nn (cidrMaskLoop l p) ip = true ↔
      ipVal ip / 2 ^ (8 * l - p) = ipVal nn / 2 ^ (8 * l - p)) := by
  intro l
  induction l with
  | zero =>
    intro p nn ip hn hi _ _ _
    rw [List.length_eq_zero] at hn hi
    subst hn; subst hi
    simp [containsLoop, cidrMaskLoop]
  | succ l ih =>
    intro p nn ip hn hi hbn hbi hp
    match nn, ip, hn, hi with
    | a :: nn1, c :: ip1, hn, hi =>
      simp only [List.length_cons, Nat.add_right_cancel_iff] at hn hi
      have ha : a < 256 := hbn a (List.mem_cons_self _ _)
      have hc : c < 256 := hbi c (List.mem_cons_self _ _)
      have hbn1 : IsBytes nn1 := fun x hx => hbn x (List.mem_cons_of_mem _ hx)
      have hbi1 : IsBytes ip1 := fun x hx => hbi x (List.mem_cons_of_mem _ hx)
      have hw := ipVal_lt nn1 hbn1
      have hv := ipVal_lt ip1 hbi1
      rw [hn] at hw
      rw [hi] at hv
      unfold cidrMaskLoop
      split_ifs with h8
      · -- a whole byte of the prefix
        have hk : 8 * (l + 1) - p = 8 * l - (p - 8) := by omega
        have hkl : 8 * l - (p - 8) ≤ 8 * l := by omega
        have hX := pow256_split l (8 * l - (p - 8)) hkl
        simp only [containsLoop, byte_and_ff a ha, byte_and_ff c hc, ipVal, hn, hi]
        rw [hk, hX]
        rw [hX] at hw hv
        rw [div_split _ _ c a _ _ (Nat.two_pow_pos _) (Nat.two_pow_pos _) hv hw,
          ← ih (p - 8) nn1 ip1 hn hi hbn1 hbi1 (by omega)]
        by_cases hac : a = c
        · simp [hac]
        · simp [hac]; intro h; exact absurd h.symm hac
      · -- the last byte of the prefix, covered in part
        have hp8 : p < 8 := by omega
        have hk : 8 * (l + 1) - p = 8 * l + (8 - p) := by omega
        have hrest : containsLoop nn1 (cidrMaskLoop l 0) ip1 = true := by
          rw [ih 0 nn1 ip1 hn hi hbn1 hbi1 (by omega)]
          have e : (256 : Nat) ^ l = 2 ^ (8 * l) := by
            rw [show (256 : Nat) = 2 ^ 8 from rfl, ← pow_mul]
          rw [e] at hw hv
          simp only [Nat.sub_zero]
          rw [Nat.div_eq_of_lt hv, Nat.div_eq_of_lt hw]
        have e : (256 : Nat) ^ l = 2 ^ (8 * l) := by
          rw [show (256 : Nat) = 2 ^ 8 from rfl, ← pow_mul]
        simp only [containsLoop, byte_and_lastMask p hp8 a ha, byte_and_lastMask p hp8 c hc,
          ipVal, hn, hi, hrest]
        rw [hk, pow_add, e, div_high _ c _ _ (Nat.two_pow_pos _) (e ▸ hv),
          div_high _ a _ _ (Nat.two_pow_pos _) (e ▸ hw)]
        have hpos : 0 < 2 ^ (8 - p) := Nat.two_pow_pos _
        constructor
        · intro h
          by_contra hne
          apply hne
          by_contra hcon
          have : a / 2 ^ (8 - p) * 2 ^ (8 - p) ≠ c / 2 ^ (8 - p) * 2 ^ (8 - p) := by
            intro h2
            exact hcon (Nat.eq_of_mul_eq_mul_right hpos h2).symm
          simp [this] at h
        · intro h
          simp [h]

theorem IsBytes.zipAnd : ∀ (ip m : List Nat), IsBytes ip →
    IsBytes (List.zipWith (fun a b => a &&& b) ip m) := by
  intro ip
  induction ip with
  | nil => intro m _ b hb; simp at hb
  | cons a ip1 ih =>
    intro m h
    cases m with
    | nil => intro b hb; simp at hb
    | cons c m1 =>
      intro b hb
      simp only [List.zipWith_cons_cons, List.mem_cons] at hb
      rcases hb with rfl | hb
      · exact Nat.lt_of_le_of_lt Nat.and_le_left (h a (List.mem_cons_self _ _))
      · exact ih m1 (fun x hx => h x (List.mem_cons_of_mem _ hx)) b hb

theorem IsBytes.drop {l : List Nat} (h : IsBytes l) (k : Nat) : IsBytes (l.drop k) :=
  fun b hb => h b (List.mem_of_mem_drop hb)

theorem IsBytes.take {l : List Nat} (h : IsBytes l) (k : Nat) : IsBytes (l.take k) :=
  fun b hb => h b (List.mem_of_mem_take hb)

/-- The network of a parsed block has no bit set below its prefix. -/
theorem masked_aligned : ∀ (l p : Nat) (ip : List Nat), ip.length = l → IsBytes ip → p ≤ 8 * l →
    ipVal (List.zipWith (fun a b => a &&& b) ip (cidrMaskLoop l p)) % 2 ^ (8 * l - p) = 0 := by
  intro l
  induction l with
  | zero =>
    intro p ip hi _ _
    rw [List.length_eq_zero] at hi
    subst hi
    simp [ipVal, Nat.mod_one]
  | succ l ih =>
    intro p ip hi hb hp
    match ip, hi with
    | c :: ip1, hi =>
      simp only [List.length_cons, Nat.add_right_cancel_iff] at hi
      have hc : c < 256 := hb c (List.mem_cons_self _ _)
      have hb1 : IsBytes ip1 := fun x hx => hb x (List.mem_cons_of_mem _ hx)
      unfold cidrMaskLoop
      split_ifs with h8
      · have hk : 8 * (l + 1) - p = 8 * l - (p - 8) := by omega
        have hX := pow256_split l (8 * l - (p - 8)) (by omega)
        have hrec := ih (p - 8) ip1 hi hb1 (by omega)
        simp only [List.zipWith_cons_cons, ipVal, List.length_zipWith, hi, cidrMaskLoop_length,
          Nat.min_self]
        rw [hk, hX, ← Nat.mul_assoc, Nat.add_comm, Nat.add_mul_mod_self_right]
        exact hrec
      · have hp8 : p < 8 := by omega
        have hk : 8 * (l + 1) - p = 8 * l + (8 - p) := by omega
        have e : (256 : Nat) ^ l = 2 ^ (8 * l) := by
          rw [show (256 : Nat) = 2 ^ 8 from rfl, ← pow_mul]
        have hrec := ih 0 ip1 hi hb1 (by omega)
        have hlt := ipVal_lt _ (IsBytes.zipAnd ip1 (cidrMaskLoop l 0) hb1)
        simp only [List.length_zipWith, hi, cidrMaskLoop_length, Nat.min_self, e] at hlt
        simp only [Nat.sub_zero] at hrec
        rw [Nat.mod_eq_of_lt hlt] at hrec
        simp only [List.zipWith_cons_cons, ipVal, List.length_zipWith, hi, cidrMaskLoop_length,
          Nat.min_self, hrec, byte_and_lastMask p hp8 c hc, Nat.add_zero]
        rw [hk, e, Nat.mul_assoc, show 2 ^ (8 - p) * 2 ^ (8 * l) = 2 ^ (8 * l + (8 - p)) by
          rw [pow_add, Nat.mul_comm]]
        exact Nat.mul_mod_left _ _

theorem cidrMaskLoop_getElem_lt : ∀ (l p j b : Nat), p < 8 * (j + 1) →
    (cidrMaskLoop l p)[j]? = some b → b < 0xff := by
  intro l
  induction l with
  | zero => intro p j b _ h; simp [cidrMaskLoop] at h
  | succ l ih =>
    intro p j b hp h
    unfold cidrMaskLoop at h
    split_ifs at h with h8
    · cases j with
      | zero => omega
      | succ j =>
        simp only [List.getElem?_cons_succ] at h
        exact ih (p - 8) j b (by omega) h
    · cases j with
      | zero =>
        simp only [List.getElem?_cons_zero, Option.some.injEq] at h
        rw [← h]
        exact lastMask_lt p (by omega)
      | succ j =>
        simp only [List.getElem?_cons_succ] at h
        exact ih 0 j b (by omega) h

theorem ParsedShape.facts {n : IPNet} (h : ParsedShape n) : ∃ p, NetworkFacts n p := by
  obtain ⟨l, p, ip, hl, hlen, hb, hp, rfl⟩ := h
  have hml := cidrMaskLoop_length l p
  have hzl : (List.zipWith (fun a b => a &&& b) ip (cidrMaskLoop l p)).length = l := by
    simp [hlen, hml]
  rcases hl with rfl | rfl
  · -- a block written as IPv4
    have hto4 : To4 (List.zipWith (fun a b => a &&& b) ip (cidrMaskLoop 4 p)) =
        List.zipWith (fun a b => a &&& b) ip (cidrMaskLoop 4 p) := by
      simp [To4, hzl, IPv4len]
    have hne : List.zipWith (fun a b => a &&& b) ip (cidrMaskLoop 4 p) ≠ [] := by
      intro e; rw [e] at hzl; simp at hzl
    have hcanon : canon (List.zipWith (fun a b => a &&& b) ip (cidrMaskLoop 4 p)) =
        List.zipWith (fun a b => a &&& b) ip (cidrMaskLoop 4 p) := by
      simp [canon, hto4]
    refine ⟨p, ?_⟩
    constructor
    · rw [hcanon, hzl]; exact Or.inl rfl
    · rw [hcanon]; exact IsBytes.zipAnd _ _ hb
    · rw [hcanon, hzl]; exact hp
    · rw [hcanon, hzl]
      simp [networkNumberAndMask, hto4, hne, hzl, hml, IPv4len, IPv6len]
    · simp only [canonPrefixLen, hcanon, hzl, hml, onesCount_cidrMaskLoop 4 p hp]
      omega
    · rw [hcanon, hzl]; exact masked_aligned 4 p ip hlen hb hp
  · -- a block written as IPv6
    by_cases hmap : To4 (List.zipWith (fun a b => a &&& b) ip (cidrMaskLoop 16 p)) = []
    · have hcanon : canon (List.zipWith (fun a b => a &&& b) ip (cidrMaskLoop 16 p)) =
          List.zipWith (fun a b => a &&& b) ip (cidrMaskLoop 16 p) := by
        simp [canon, hmap]
      refine ⟨p, ?_⟩
      constructor
      · rw [hcanon, hzl]; exact Or.inr rfl
      · rw [hcanon]; exact IsBytes.zipAnd _ _ hb
      · rw [hcanon, hzl]; exact hp
      · rw [hcanon, hzl]
        simp [networkNumberAndMask, hmap, hzl, hml, IPv4len, IPv6len]
      · simp only [canonPrefixLen, hcanon, hzl, hml, onesCount_cidrMaskLoop 16 p hp]
        omega
      · rw [hcanon, hzl]; exact masked_aligned 16 p ip hlen hb hp
    · -- the network is an IPv4 address in 16-byte form
      have hcond : (List.zipWith (fun a b => a &&& b) ip (cidrMaskLoop 16 p)).getD 11 0 = 0xff := by
        by_contra hc
        apply hmap
        unfold To4
        rw [if_neg (by rw [hzl]; decide), if_neg (fun h => hc h.2.2.2)]
      have hp96 : 96 ≤ p := by
        by_contra hlt
        rw [List.getD_eq_getElem?_getD, List.getElem?_zipWith] at hcond
        cases ha : ip[11]? with
        | none => rw [ha] at hcond; simp at hcond
        | some a =>
          cases hm : (cidrMaskLoop 16 p)[11]? with
          | none => rw [ha, hm] at hcond; simp at hcond
          | some b =>
            rw [ha, hm] at hcond
            simp only [Option.getD_some] at hcond
            have hb255 := cidrMaskLoop_getElem_lt 16 p 11 b (by omega) hm
            have := @Nat.and_le_right a b
            omega
      have hmask : cidrMaskLoop 16 p = List.replicate 12 0xff ++ cidrMaskLoop 4 (p - 96) :=
        cidrMaskLoop_ge 12 4 p (by omega)
      have hmd : (cidrMaskLoop 16 p).drop 12 = cidrMaskLoop 4 (p - 96) := by
        rw [hmask, List.drop_left' (by simp)]
      have hdl : (ip.drop 12).length = 4 := by simp [hlen]
      have hto4 : To4 (List.zipWith (fun a b => a &&& b) ip (cidrMaskLoop 16 p)) =
          List.zipWith (fun a b => a &&& b) (ip.drop 12) (cidrMaskLoop 4 (p - 96)) := by
        have hne := hmap
        simp only [To4, hzl, IPv4len, IPv6len] at hne ⊢
        rw [if_neg (by decide)] at hne ⊢
        split_ifs at hne ⊢ with hc
        · rw [List.drop_zipWith, hmd]
          apply List.take_of_length_le
          simp [hdl, cidrMaskLoop_length]
        · exact absurd rfl hne
      have hz4 : (List.zipWith (fun a b => a &&& b) (ip.drop 12)
          (cidrMaskLoop 4 (p - 96))).length = 4 := by
        simp [hdl, cidrMaskLoop_length]
      have hcanon : canon (List.zipWith (fun a b => a &&& b) ip (cidrMaskLoop 16 p)) =
          List.zipWith (fun a b => a &&& b) (ip.drop 12) (cidrMaskLoop 4 (p - 96)) := by
        unfold canon
        rw [if_pos hmap, hto4]
      refine ⟨p - 96, ?_⟩
      constructor
      · rw [hcanon, hz4]; exact Or.inl rfl
      · rw [hcanon]; exact IsBytes.zipAnd _ _ (hb.drop 12)
      · rw [hcanon, hz4]; omega
      · rw [hcanon, hz4]
        have hne4 : List.zipWith (fun a b => a &&& b) (ip.drop 12) (cidrMaskLoop 4 (p - 96)) ≠ [] := by
          intro e; rw [e] at hz4; simp at hz4
        unfold networkNumberAndMask
        dsimp only
        rw [hto4]
        simp only [hz4, hml, hmd, hzl, IPv4len, IPv6len, hne4, false_and, if_false]
        simp
      · simp only [canonPrefixLen, hcanon, hz4, hml, onesCount_cidrMaskLoop 16 p hp]
      · rw [hcanon, hz4]; exact masked_aligned 4 (p - 96) (ip.drop 12) hdl (hb.drop 12) (by omega)

theorem IsBytes.canonBytes {ip : IP} (h : IsBytes ip) : IsBytes (canon ip) := by
  have h4 : IsBytes (To4 ip) := by
    unfold To4
    split_ifs
    · exact h
    · exact (h.drop 12).take 4
    · intro b hb; simp at hb
  unfold GoCloud.canon
  split_ifs
  · exact h4
  · exact h

theorem To4_length (ip : IP) (h : To4 ip ≠ []) : (To4 ip).length = 4 := by
  unfold To4 at h ⊢
  split_ifs at h ⊢ with h4 h16
  · exact h4
  · simp [h16.1, IPv6len]
  · exact absurd rfl h

theorem canon_canon (ip : IP) : canon (canon ip) = canon ip := by
  by_cases h : To4 ip = []
  · have e : canon ip = ip := by simp [canon, h]
    rw [e, e]
  · have e : canon ip = To4 ip := by simp [canon, h]
    have h4 : To4 (To4 ip) = To4 ip := by
      have hl := To4_length ip h
      generalize To4 ip = x at hl
      simp [To4, hl, IPv4len]
    rw [e]
    simp [canon, h4, h]

/-- The containment test of Go on a parsed block is prefix containment on
canonical forms. -/
theorem Contains_iff_of_facts (n : IPNet) (ip : IP) (p : Nat) (hf : NetworkFacts n p)
    (hb : IsBytes ip) : Contains n ip = true ↔ CanonContains n ip := by
  have hc : Contains n ip =
      (if (canon ip).length ≠ (canon n.IP).length then false
        else containsLoop (canon n.IP) (cidrMaskLoop (canon n.IP).length p) (canon ip)) := by
    unfold Contains
    rw [hf.nnm]
    rfl
  rw [hc]
  unfold CanonContains prefixEq
  rw [hf.prefixLen]
  by_cases hl : (canon ip).length = (canon n.IP).length
  · rw [if_neg (by simpa using hl)]
    rw [containsLoop_iff _ p (canon n.IP) (canon ip) rfl hl hf.bytes hb.canonBytes hf.le]
    simp [hl]
  · rw [if_pos hl]
    simp [hl]

theorem Contains_iff (s : String) (n : IPNet) (ip : IP) (h : ParseCIDR s = some n)
    (hb : IsBytes ip) : Contains n ip = true ↔ CanonContains n ip := by
  obtain ⟨p, hf⟩ := (ParseCIDR_shape s n h).facts
  exact Contains_iff_of_facts n ip p hf hb

/-! ## The scan of `IsCloudIP` -/

theorem IsCloudIPRanges_cases (name : String) (ip : IP) : ∀ (rs : List String),
    (∀ r ∈ rs, (ParseCIDR r).isSome = true) →
    ((∃ r ∈ rs, ∃ n, ParseCIDR r = some n ∧ Contains n ip = true) ∧
        IsCloudIPRanges name ip rs = .ok (some { isCloud := true, service := name, err := none })) ∨
    ((∀ r ∈ rs, ∀ n, ParseCIDR r = some n → Contains n ip = false) ∧
        IsCloudIPRanges name ip rs = .ok none) := by
  intro rs
  induction rs with
  | nil => intro _; right; exact ⟨by simp, rfl⟩
  | cons r rest ih =>
    intro hp
    have hr := hp r (List.mem_cons_self _ _)
    obtain ⟨n, hn⟩ := Option.isSome_iff_exists.mp hr
    have hrest := ih (fun x hx => hp x (List.mem_cons_of_mem _ hx))
    by_cases hc : Contains n ip = true
    · left
      refine ⟨⟨r, List.mem_cons_self _ _, n, hn, hc⟩, ?_⟩
      simp [IsCloudIPRanges, hn, hc]
    · rcases hrest with ⟨⟨x, hx, m, hm, hxc⟩, he⟩ | ⟨hnone, he⟩
      · left
        refine ⟨⟨x, List.mem_cons_of_mem _ hx, m, hm, hxc⟩, ?_⟩
        simp [IsCloudIPRanges, hn, hc, he]
      · right
        refine ⟨?_, ?_⟩
        · intro x hx m hm
          rcases List.mem_cons.mp hx with rfl | hx
          · rw [hn] at hm
            cases hm
            simpa using hc
          · exact hnone x hx m hm
        · simp [IsCloudIPRanges, hn, hc, he]

/-- The scan faults on the first range that does not parse, when no range
before it holds the address. -/
theorem IsCloudIPRanges_fault (name : String) (ip : IP) : ∀ (rs : List String),
    (∃ r ∈ rs, ParseCIDR r = none) →
    (∀ r ∈ rs, ∀ n, ParseCIDR r = some n → Contains n ip = false) →
    IsCloudIPRanges name ip rs = .error Fault.nilPointer := by
  intro rs
  induction rs with
  | nil => intro h; simp at h
  | cons r rest ih =>
    intro hbad hno
    cases hr : ParseCIDR r with
    | none => simp [IsCloudIPRanges, hr]
    | some n =>
      have hc := hno r (List.mem_cons_self _ _) n hr
      obtain ⟨x, hx, hxn⟩ := hbad
      rcases List.mem_cons.mp hx with rfl | hx
      · rw [hr] at hxn; cases hxn
      · have := ih ⟨x, hx, hxn⟩ (fun y hy m hm => hno y (List.mem_cons_of_mem _ hy) m hm)
        simp [IsCloudIPRanges, hr, hc, this]

theorem IsCloudIPRanges_none (name : String) (ip : IP) : ∀ (rs : List String),
    (∀ r ∈ rs, (ParseCIDR r).isSome = true) →
    (∀ r ∈ rs, ∀ n, ParseCIDR r = some n → Contains n ip = false) →
    IsCloudIPRanges name ip rs = .ok none := by
  intro rs hp hno
  rcases IsCloudIPRanges_cases name ip rs hp with ⟨⟨r, hr, n, hn, hc⟩, _⟩ | ⟨_, he⟩
  · rw [hno r hr n hn] at hc; cases hc
  · exact he

theorem IsCloudIPRanges_some (name : String) (ip : IP) (rs : List String)
    (hp : ∀ r ∈ rs, (ParseCIDR r).isSome = true)
    (hyes : ∃ r ∈ rs, ∃ n, ParseCIDR r = some n ∧ Contains n ip = true) :
    IsCloudIPRanges name ip rs = .ok (some { isCloud := true, service := name, err := none }) := by
  rcases IsCloudIPRanges_cases name ip rs hp with ⟨_, he⟩ | ⟨hno, _⟩
  · exact he
  · obtain ⟨r, hr, n, hn, hc⟩ := hyes
    rw [hno r hr n hn] at hc; cases hc

/-- The scan of a table whose ranges all parse: the first service with a range
holding the address decides, and without one the address is not cloud. -/
theorem IsCloudIPServices_first (ip : IP) : ∀ (pre : List CloudService) (rest : List CloudService),
    (∀ svc ∈ pre, ∀ r ∈ svc.IPRange, (ParseCIDR r).isSome = true) →
    (∀ svc ∈ pre, ∀ r ∈ svc.IPRange, ∀ n, ParseCIDR r = some n → Contains n ip = false) →
    IsCloudIPServices ip (pre ++ rest) = IsCloudIPServices ip rest := by
  intro pre
  induction pre with
  | nil => intro rest _ _; rfl
  | cons s pre1 ih =>
    intro rest hp hno
    have h1 := IsCloudIPRanges_none s.Name ip s.IPRange (hp s (List.mem_cons_self _ _))
      (hno s (List.mem_cons_self _ _))
    simp only [List.cons_append, IsCloudIPServices, h1]
    exact ih rest (fun x hx => hp x (List.mem_cons_of_mem _ hx))
      (fun x hx => hno x (List.mem_cons_of_mem _ hx))

theorem IsCloudIPServices_cases (ip : IP) : ∀ (svcs : List CloudService),
    (∀ svc ∈ svcs, ∀ r ∈ svc.IPRange, (ParseCIDR r).isSome = true) →
    ((∃ svc ∈ svcs, ∃ r ∈ svc.IPRange, ∃ n, ParseCIDR r = some n ∧ Contains n ip = true) ∧
        ∃ name, IsCloudIPServices ip svcs = .ok { isCloud := true, service := name, err := none }) ∨
    ((∀ svc ∈ svcs, ∀ r ∈ svc.IPRange, ∀ n, ParseCIDR r = some n → Contains n ip = false) ∧
        IsCloudIPServices ip svcs = .ok { isCloud := false, service := "", err := none }) := by
  intro svcs
  induction svcs with
  | nil => intro _; right; exact ⟨by simp, rfl⟩
  | cons s rest ih =>
    intro hp
    rcases IsCloudIPRanges_cases s.Name ip s.IPRange (hp s (List.mem_cons_self _ _)) with
      ⟨⟨r, hr, n, hn, hc⟩, he⟩ | ⟨hno, he⟩
    · left
      exact ⟨⟨s, List.mem_cons_self _ _, r, hr, n, hn, hc⟩, s.Name, by simp [IsCloudIPServices, he]⟩
    · rcases ih (fun x hx => hp x (List.mem_cons_of_mem _ hx)) with
        ⟨⟨x, hx, r, hr, n, hn, hc⟩, name, hres⟩ | ⟨hnone, hres⟩
      · left
        exact ⟨⟨x, List.mem_cons_of_mem _ hx, r, hr, n, hn, hc⟩, name,
          by simp [IsCloudIPServices, he, hres]⟩
      · right
        refine ⟨?_, by simp [IsCloudIPServices, he, hres]⟩
        intro x hx
        rcases List.mem_cons.mp hx with rfl | hx
        · exact hno
        · exact hnone x hx

theorem IsCloudIPServices_fault (ip : IP) : ∀ (svcs : List CloudService),
    (∃ svc ∈ svcs, ∃ r ∈ svc.IPRange, ParseCIDR r = none) →
    (∀ svc ∈ svcs, ∀ r ∈ svc.IPRange, ∀ n, ParseCIDR r = some n → Contains n ip = false) →
    IsCloudIPServices ip svcs = .error Fault.nilPointer := by
  intro svcs
  induction svcs with
  | nil => intro h; simp at h
  | cons s rest ih =>
    intro hbad hno
    by_cases hs : ∃ r ∈ s.IPRange, ParseCIDR r = none
    · have := IsCloudIPRanges_fault s.Name ip s.IPRange hs (hno s (List.mem_cons_self _ _))
      simp [IsCloudIPServices, this]
    · have hall : ∀ r ∈ s.IPRange, (ParseCIDR r).isSome = true := by
        intro r hr
        cases h : ParseCIDR r with
        | none => exact absurd ⟨r, hr, h⟩ hs
        | some n => rfl
      have h1 := IsCloudIPRanges_none s.Name ip s.IPRange hall (hno s (List.mem_cons_self _ _))
      obtain ⟨x, hx, r, hr, hrn⟩ := hbad
      rcases List.mem_cons.mp hx with rfl | hx
      · exact absurd ⟨r, hr, hrn⟩ hs
      · have := ih ⟨x, hx, r, hr, hrn⟩ (fun y hy => hno y (List.mem_cons_of_mem _ hy))
        simp [IsCloudIPServices, h1, this]

theorem aligned_last (N K : Nat) (hK : 0 < K) (h : N % K = 0) : (N + K - 1) / K = N / K := by
  obtain ⟨q, rfl⟩ : ∃ q, N = q * K := ⟨N / K, (Nat.div_mul_cancel (Nat.dvd_of_mod_eq_zero h)).symm⟩
  have e : q * K + K - 1 = (K - 1) + q * K := by
    generalize q * K = X
    omega
  rw [e, Nat.add_mul_div_right _ _ hK, Nat.mul_div_cancel _ hK, Nat.div_eq_of_lt (by omega)]
  simp

theorem aligned_below (N K v : Nat) (hK : 0 < K) (h : N % K = 0) (hv : v + 1 = N) :
    v / K ≠ N / K := by
  obtain ⟨q, rfl⟩ : ∃ q, N = q * K := ⟨N / K, (Nat.div_mul_cancel (Nat.dvd_of_mod_eq_zero h)).symm⟩
  rw [Nat.mul_div_cancel _ hK]
  intro hq
  have h1 : v / K * K ≤ v := Nat.div_mul_le_self v K
  rw [hq] at h1
  omega

theorem aligned_above (N K : Nat) (hK : 0 < K) : (N + K) / K ≠ N / K := by
  rw [Nat.add_div_right _ hK]
  omega

/-! ## The claims about the classifier -/

/-- C1, as the code has it: on a table whose ranges all parse and a valid
address, `IsCloudIP` returns, and it returns `isCloud = true` exactly when
some range of some service is a block that holds the address under prefix
containment on canonical forms (an address value or a block's network of the
form `::ffff:a.b.c.d` counts as the IPv4 address `a.b.c.d`, the block's prefix
length less 96).  Every block of the table matches its network address, and
for every valid address of the block's canonical width: the network address
and the last address of the block match, the address just below and the
address just above do not. -/
theorem IsCloudIP_iff_canonical_containment (c : CloudServices) (ip : IP)
    (hparse : AllRangesParse c) (hip : ValidIP ip) :
    ((∃ r, IsCloudIP c ip = .ok r ∧ r.isCloud = true) ↔
        ∃ svc ∈ c.Services, ServiceContains svc ip) ∧
    (∃ r, IsCloudIP c ip = .ok r) ∧
    (∀ svc ∈ c.Services, ∀ rg ∈ svc.IPRange, ∀ n, ParseCIDR rg = some n →
      Contains n (canon n.IP) = true ∧
      ∀ a, ValidIP a → (canon a).length = (canon n.IP).length →
        (ipVal (canon a) = ipVal (canon n.IP) → Contains n a = true) ∧
        (ipVal (canon a) =
            ipVal (canon n.IP) + 2 ^ (8 * (canon n.IP).length - canonPrefixLen n) - 1 →
          Contains n a = true) ∧
        (ipVal (canon a) + 1 = ipVal (canon n.IP) → Contains n a = false) ∧
        (ipVal (canon a) =
            ipVal (canon n.IP) + 2 ^ (8 * (canon n.IP).length - canonPrefixLen n) →
          Contains n a = false)) := by
  refine ⟨?_, ?_, ?_⟩
  · constructor
    · rintro ⟨r, hr, hcloud⟩
      rcases IsCloudIPServices_cases ip c.Services hparse with
        ⟨⟨svc, hsvc, rg, hrg, n, hn, hc⟩, _⟩ | ⟨_, hres⟩
      · exact ⟨svc, hsvc, rg, hrg, n, hn, (Contains_iff rg n ip hn hip.2).mp hc⟩
      · unfold IsCloudIP at hr
        rw [hres] at hr
        cases hr
        cases hcloud
    · rintro ⟨svc, hsvc, rg, hrg, n, hn, hc⟩
      have hcon := (Contains_iff rg n ip hn hip.2).mpr hc
      rcases IsCloudIPServices_cases ip c.Services hparse with
        ⟨_, name, hres⟩ | ⟨hnone, _⟩
      · exact ⟨_, hres, rfl⟩
      · rw [hnone svc hsvc rg hrg n hn] at hcon
        cases hcon
  · rcases IsCloudIPServices_cases ip c.Services hparse with ⟨_, name, hres⟩ | ⟨_, hres⟩
    · exact ⟨_, hres⟩
    · exact ⟨_, hres⟩
  · intro svc _ rg _ n hn
    obtain ⟨p, hf⟩ := (ParseCIDR_shape rg n hn).facts
    refine ⟨?_, ?_⟩
    · rw [Contains_iff_of_facts n (canon n.IP) p hf hf.bytes]
      unfold CanonContains prefixEq
      rw [canon_canon]
      exact ⟨rfl, rfl⟩
    intro a ha hlen
    have hiff := Contains_iff_of_facts n a p hf ha.2
    have hpl := hf.prefixLen
    have hK : 0 < 2 ^ (8 * (canon n.IP).length - p) := Nat.two_pow_pos _
    unfold CanonContains prefixEq at hiff
    rw [hpl] at hiff ⊢
    refine ⟨?_, ?_, ?_, ?_⟩
    · intro hv
      exact hiff.mpr ⟨hlen, by rw [hv]⟩
    · intro hv
      exact hiff.mpr ⟨hlen, by rw [hv]; exact aligned_last _ _ hK hf.aligned⟩
    · intro hv
      rw [Bool.eq_false_iff]
      intro hc
      exact aligned_below _ _ _ hK hf.aligned hv (hiff.mp hc).2
    · intro hv
      rw [Bool.eq_false_iff]
      intro hc
      have := (hiff.mp hc).2
      rw [hv] at this
      exact aligned_above _ _ hK this

/-- C1, witness: the table `{"AWS": ["3.0.0.0/8"]}` and the address `3.5.5.5`. -/
theorem IsCloudIP_iff_canonical_containment_witness :
    AllRangesParse awsTable ∧ ValidIP (ParseIP "3.5.5.5") ∧
    ((∃ r, IsCloudIP awsTable (ParseIP "3.5.5.5") = .ok r ∧ r.isCloud = true) ↔
        ∃ svc ∈ awsTable.Services, ServiceContains svc (ParseIP "3.5.5.5")) :=
  ⟨by decide, by decide,
    (IsCloudIP_iff_canonical_containment awsTable (ParseIP "3.5.5.5") (by decide) (by decide)).1⟩

/-- C1 fails as stated.  The address `::ffff:3.5.5.5` is a valid 16-byte address
and the block `::/0`, of 128-bit width and prefix length 0, holds it under
prefix containment, yet `IsCloudIP` returns `isCloud = false`: the equivalence
of the claim does not hold for every table and address.  The last address of
the block `::ff00:0:0/88` is `::ffff:ffff:ffff`, and the block does not match
it. -/
theorem IsCloudIP_std_containment_counterexample :
    (AllRangesParse allV6Table ∧ ValidIP (ParseIP "::ffff:3.5.5.5") ∧
      (∃ n, ParseCIDR "::/0" = some n ∧ StdContains n (ParseIP "::ffff:3.5.5.5")) ∧
      IsCloudIP allV6Table (ParseIP "::ffff:3.5.5.5") =
        .ok { isCloud := false, service := "", err := none }) ∧
    (¬ ∀ (c : CloudServices) (ip : IP), AllRangesParse c → ValidIP ip →
      ((∃ r, IsCloudIP c ip = .ok r ∧ r.isCloud = true) ↔
        ∃ svc ∈ c.Services, ∃ rg ∈ svc.IPRange, ∃ n,
          ParseCIDR rg = some n ∧ StdContains n ip)) ∧
    (∃ n, ParseCIDR "::ff00:0:0/88" = some n ∧ n.IP.length = 16 ∧ onesCount n.Mask = 88 ∧
      ValidIP (ParseIP "::ffff:ffff:ffff") ∧
      ipVal (ParseIP "::ffff:ffff:ffff") = ipVal n.IP + 2 ^ (128 - 88) - 1 ∧
      StdContains n (ParseIP "::ffff:ffff:ffff") ∧
      Contains n (ParseIP "::ffff:ffff:ffff") = false) := by
  have hres : IsCloudIP allV6Table (ParseIP "::ffff:3.5.5.5") =
      .ok { isCloud := false, service := "", err := none } := by decide
  refine ⟨⟨by decide, by decide, ⟨_, rfl, by decide⟩, hres⟩, ?_, ⟨_, rfl, ?_⟩⟩
  · intro h
    have hc := (h allV6Table (ParseIP "::ffff:3.5.5.5") (by decide) (by decide)).mpr
      ⟨{ Name := "X", IPRange := ["::/0"] }, by simp [allV6Table], "::/0", by simp, _, rfl,
        by decide⟩
    obtain ⟨r, hr, hcloud⟩ := hc
    rw [hres] at hr
    cases hr
    cases hcloud
  · decide

theorem not_ServiceHolds (svc : CloudService) (ip : IP) (h : ¬ ServiceHolds svc ip) :
    ∀ r ∈ svc.IPRange, ∀ n, ParseCIDR r = some n → Contains n ip = false := by
  intro r hr n hn
  rw [Bool.eq_false_iff]
  intro hc
  exact h ⟨r, hr, n, hn, hc⟩

theorem exists_first_service (P : CloudService → Prop) : ∀ (l : List CloudService),
    (∃ x ∈ l, P x) → ∃ pre x post, l = pre ++ x :: post ∧ (∀ y ∈ pre, ¬ P y) ∧ P x := by
  intro l
  induction l with
  | nil => intro h; simp at h
  | cons a rest ih =>
    intro h
    by_cases ha : P a
    · exact ⟨[], a, rest, rfl, by simp, ha⟩
    · obtain ⟨x, hx, hpx⟩ := h
      rcases List.mem_cons.mp hx with rfl | hx
      · exact absurd hpx ha
      · obtain ⟨pre, y, post, hl, hpre, hy⟩ := ih ⟨x, hx, hpx⟩
        refine ⟨a :: pre, y, post, by rw [hl]; rfl, ?_, hy⟩
        intro z hz
        rcases List.mem_cons.mp hz with rfl | hz
        · exact ha
        · exact hpre z hz

/-- C2, as the code has it: on a table whose ranges all parse and a valid
address, `IsCloudIP` returns `(true, Name, nil)` for the first service, in the
order of `c.Services`, that has a range whose network contains the address,
and `(false, "", nil)` when no service has one; when some service has one there
is such a first service.  Containment is the test of the classifier,
`(*IPNet).Contains`, which on a valid address is prefix containment on
canonical forms (an address value or a block's network of the form
`::ffff:a.b.c.d` counts as the IPv4 address `a.b.c.d`), and the same three
facts hold with containment stated that way. -/
theorem IsCloudIP_first_match (c : CloudServices) (ip : IP) (hparse : AllRangesParse c)
    (hip : ValidIP ip) :
    (∀ pre svc post, c.Services = pre ++ svc :: post →
      (∀ s ∈ pre, ¬ ServiceHolds s ip) → ServiceHolds svc ip →
      IsCloudIP c ip = .ok { isCloud := true, service := svc.Name, err := none }) ∧
    ((∃ s ∈ c.Services, ServiceHolds s ip) →
      ∃ pre svc post, c.Services = pre ++ svc :: post ∧
        (∀ s ∈ pre, ¬ ServiceHolds s ip) ∧ ServiceHolds svc ip ∧
        IsCloudIP c ip = .ok { isCloud := true, service := svc.Name, err := none }) ∧
    ((∀ s ∈ c.Services, ¬ ServiceHolds s ip) →
      IsCloudIP c ip = .ok { isCloud := false, service := "", err := none }) ∧
    (∀ svc, ServiceHolds svc ip ↔ ServiceContains svc ip) ∧
    (∀ pre svc post, c.Services = pre ++ svc :: post →
      (∀ s ∈ pre, ¬ ServiceContains s ip) → ServiceContains svc ip →
      IsCloudIP c ip = .ok { isCloud := true, service := svc.Name, err := none }) ∧
    ((∃ s ∈ c.Services, ServiceContains s ip) →
      ∃ pre svc post, c.Services = pre ++ svc :: post ∧
        (∀ s ∈ pre, ¬ ServiceContains s ip) ∧ ServiceContains svc ip ∧
        IsCloudIP c ip = .ok { isCloud := true, service := svc.Name, err := none }) ∧
    ((∀ s ∈ c.Services, ¬ ServiceContains s ip) →
      IsCloudIP c ip = .ok { isCloud := false, service := "", err := none }) := by
  have first : ∀ pre svc post, c.Services = pre ++ svc :: post →
      (∀ s ∈ pre, ¬ ServiceHolds s ip) → ServiceHolds svc ip →
      IsCloudIP c ip = .ok { isCloud := true, service := svc.Name, err := none } := by
    intro pre svc post hsplit hpre hsvc
    have hp1 : ∀ s ∈ pre, ∀ r ∈ s.IPRange, (ParseCIDR r).isSome = true := by
      intro s hs
      exact hparse s (by rw [hsplit]; exact List.mem_append_left _ hs)
    have hp2 : ∀ r ∈ svc.IPRange, (ParseCIDR r).isSome = true :=
      hparse svc (by rw [hsplit]; simp)
    unfold IsCloudIP
    rw [hsplit, IsCloudIPServices_first ip pre (svc :: post) hp1
      (fun s hs => not_ServiceHolds s ip (hpre s hs))]
    have := IsCloudIPRanges_some svc.Name ip svc.IPRange hp2 hsvc
    simp [IsCloudIPServices, this]
  have hiff : ∀ svc, ServiceHolds svc ip ↔ ServiceContains svc ip := by
    intro svc
    constructor
    · rintro ⟨r, hr, n, hn, hc⟩
      exact ⟨r, hr, n, hn, (Contains_iff r n ip hn hip.2).mp hc⟩
    · rintro ⟨r, hr, n, hn, hc⟩
      exact ⟨r, hr, n, hn, (Contains_iff r n ip hn hip.2).mpr hc⟩
  have someOne : (∃ s ∈ c.Services, ServiceHolds s ip) →
      ∃ pre svc post, c.Services = pre ++ svc :: post ∧
        (∀ s ∈ pre, ¬ ServiceHolds s ip) ∧ ServiceHolds svc ip ∧
        IsCloudIP c ip = .ok { isCloud := true, service := svc.Name, err := none } := by
    intro hex
    obtain ⟨pre, svc, post, hl, hpre, hsvc⟩ :=
      exists_first_service (fun s => ServiceHolds s ip) c.Services hex
    exact ⟨pre, svc, post, hl, hpre, hsvc, first pre svc post hl hpre hsvc⟩
  have noneOne : (∀ s ∈ c.Services, ¬ ServiceHolds s ip) →
      IsCloudIP c ip = .ok { isCloud := false, service := "", err := none } := by
    intro hno
    rcases IsCloudIPServices_cases ip c.Services hparse with
      ⟨⟨svc, hsvc, r, hr, n, hn, hc⟩, _⟩ | ⟨_, hres⟩
    · exact absurd ⟨r, hr, n, hn, hc⟩ (hno svc hsvc)
    · exact hres
  refine ⟨first, someOne, noneOne, hiff, ?_, ?_, ?_⟩
  · intro pre svc post hl hpre hsvc
    exact first pre svc post hl (fun s hs h => hpre s hs ((hiff s).mp h)) ((hiff svc).mpr hsvc)
  · rintro ⟨s, hs, hc⟩
    obtain ⟨pre, svc, post, hl, hpre, hsvc, hres⟩ := someOne ⟨s, hs, (hiff s).mpr hc⟩
    exact ⟨pre, svc, post, hl, fun x hx h => hpre x hx ((hiff x).mpr h), (hiff svc).mp hsvc, hres⟩
  · intro hno
    exact noneOne (fun s hs h => hno s hs ((hiff s).mp h))

/-- C2, witness: with the table `{"AWS": ["3.0.0.0/8"]}` the address `3.5.5.5`
yields `(true, "AWS")` and the address `8.8.8.8` yields `(false, "")`. -/
theorem IsCloudIP_first_match_witness :
    AllRangesParse awsTable ∧ ValidIP (ParseIP "3.5.5.5") ∧ ValidIP (ParseIP "8.8.8.8") ∧
    IsCloudIP awsTable (ParseIP "3.5.5.5") =
      .ok { isCloud := true, service := "AWS", err := none } ∧
    IsCloudIP awsTable (ParseIP "8.8.8.8") =
      .ok { isCloud := false, service := "", err := none } := by
  refine ⟨by decide, by decide, by decide, ?_, ?_⟩
  · exact (IsCloudIP_first_match awsTable (ParseIP "3.5.5.5") (by decide) (by decide)).1
      [] { Name := "AWS", IPRange := ["3.0.0.0/8"] } [] rfl (by simp)
      ⟨"3.0.0.0/8", by simp, _, rfl, by decide⟩
  · apply (IsCloudIP_first_match awsTable (ParseIP "8.8.8.8") (by decide) (by decide)).2.2.1
    intro s hs
    simp only [awsTable, List.mem_singleton] at hs
    subst hs
    rintro ⟨r, hr, n, hn, hc⟩
    simp only [List.mem_singleton] at hr
    subst hr
    have e : ParseCIDR "3.0.0.0/8" = some { IP := [3, 0, 0, 0], Mask := [255, 0, 0, 0] } := by
      decide
    rw [e] at hn
    cases hn
    revert hc
    decide

/-- C2 fails as stated.  On the table with `::/0` in its first service `V6` and
`3.0.0.0/8` in its second service `AWS`, the valid address `::ffff:3.5.5.5` is
held by the block of `V6` under prefix containment on the addresses as
written, so `V6` is the first service with a block containing it, yet
`IsCloudIP` returns the provider `AWS`.  On the table with the single block
`::ff00:0:0/88` the valid address `::ffff:ffff:ffff`, the last address of that
block, is contained in it, yet `IsCloudIP` returns `isCloud = false` with the
empty provider name. -/
theorem IsCloudIP_first_match_counterexample :
    (AllRangesParse mixedTable ∧ ValidIP (ParseIP "::ffff:3.5.5.5") ∧
      mixedTable.Services =
        [] ++ { Name := "V6", IPRange := ["::/0"] } ::
          [{ Name := "AWS", IPRange := ["3.0.0.0/8"] }] ∧
      ServiceStdContains { Name := "V6", IPRange := ["::/0"] } (ParseIP "::ffff:3.5.5.5") ∧
      IsCloudIP mixedTable (ParseIP "::ffff:3.5.5.5") =
        .ok { isCloud := true, service := "AWS", err := none } ∧
      IsCloudIP mixedTable (ParseIP "::ffff:3.5.5.5") ≠
        .ok { isCloud := true, service := "V6", err := none }) ∧
    (AllRangesParse lastBlockTable ∧ ValidIP (ParseIP "::ffff:ffff:ffff") ∧
      (∃ svc ∈ lastBlockTable.Services, ServiceStdContains svc (ParseIP "::ffff:ffff:ffff")) ∧
      IsCloudIP lastBlockTable (ParseIP "::ffff:ffff:ffff") =
        .ok { isCloud := false, service := "", err := none }) ∧
    (¬ ∀ (c : CloudServices) (ip : IP), AllRangesParse c → ValidIP ip →
      ∀ pre svc post, c.Services = pre ++ svc :: post →
        (∀ s ∈ pre, ¬ ServiceStdContains s ip) → ServiceStdContains svc ip →
        IsCloudIP c ip = .ok { isCloud := true, service := svc.Name, err := none }) := by
  have hv6 : ServiceStdContains { Name := "V6", IPRange := ["::/0"] }
      (ParseIP "::ffff:3.5.5.5") := ⟨"::/0", by simp, _, rfl, by decide⟩
  have hres : IsCloudIP mixedTable (ParseIP "::ffff:3.5.5.5") =
      .ok { isCloud := true, service := "AWS", err := none } := by decide
  refine ⟨⟨by decide, by decide, rfl, hv6, hres, ?_⟩, ⟨by decide, by decide, ?_, by decide⟩, ?_⟩
  · rw [hres]
    decide
  · exact ⟨{ Name := "X", IPRange := ["::ff00:0:0/88"] }, by simp [lastBlockTable],
      "::ff00:0:0/88", by simp, _, rfl, by decide⟩
  · intro h
    have h1 := h mixedTable (ParseIP "::ffff:3.5.5.5") (by decide) (by decide)
      [] { Name := "V6", IPRange := ["::/0"] } [{ Name := "AWS", IPRange := ["3.0.0.0/8"] }]
      rfl (by simp) hv6
    rw [hres] at h1
    revert h1
    decide

theorem IsCloudIPRanges_err (name : String) (ip : IP) : ∀ (rs : List String) (r : Classification),
    IsCloudIPRanges name ip rs = .ok (some r) → r.err = none := by
  intro rs
  induction rs with
  | nil => intro r h; simp [IsCloudIPRanges] at h
  | cons x rest ih =>
    intro r h
    unfold IsCloudIPRanges at h
    split at h
    · cases h
    · split_ifs at h
      · cases h; rfl
      · exact ih r h

theorem IsCloudIPServices_err (ip : IP) : ∀ (svcs : List CloudService) (r : Classification),
    IsCloudIPServices ip svcs = .ok r → r.err = none := by
  intro svcs
  induction svcs with
  | nil => intro r h; simp only [IsCloudIPServices, Except.ok.injEq] at h; rw [← h]
  | cons s rest ih =>
    intro r h
    unfold IsCloudIPServices at h
    split at h
    · cases h
    · rename_i r1 h1
      cases h
      exact IsCloudIPRanges_err _ _ _ _ h1
    · exact ih r h

theorem Contains_nil (s : String) (n : IPNet) (h : ParseCIDR s = some n) :
    Contains n [] = false := by
  rw [Bool.eq_false_iff]
  intro hc
  obtain ⟨p, hf⟩ := (ParseCIDR_shape s n h).facts
  have h1 := ((Contains_iff_of_facts n [] p hf (by intro b hb; simp at hb)).mp hc).1
  have h2 : (canon ([] : IP)).length = 0 := by decide
  rcases hf.width with hw | hw <;> omega

theorem IsCloudIPRanges_nil (name : String) : ∀ (rs : List String),
    IsCloudIPRanges name [] rs = .ok none ∨
    IsCloudIPRanges name [] rs = .error Fault.nilPointer := by
  intro rs
  induction rs with
  | nil => left; rfl
  | cons r rest ih =>
    cases hr : ParseCIDR r with
    | none => right; simp [IsCloudIPRanges, hr]
    | some n =>
      have hc := Contains_nil r n hr
      rcases ih with h | h
      · left; simp [IsCloudIPRanges, hr, hc, h]
      · right; simp [IsCloudIPRanges, hr, hc, h]

theorem IsCloudIPServices_nil : ∀ (svcs : List CloudService),
    IsCloudIPServices [] svcs = .ok { isCloud := false, service := "", err := none } ∨
    IsCloudIPServices [] svcs = .error Fault.nilPointer := by
  intro svcs
  induction svcs with
  | nil => left; rfl
  | cons s rest ih =>
    rcases IsCloudIPRanges_nil s.Name s.IPRange with h | h
    · rcases ih with h2 | h2
      · left; simp [IsCloudIPServices, h, h2]
      · right; simp [IsCloudIPServices, h, h2]
    · right; simp [IsCloudIPServices, h]

/-- C3, as the code has it: `IsCloudIP` has no error to return.  A string that
does not parse as an address reaches it as the nil address, and on a table
whose ranges all parse the result is the ordinary `(false, "", nil)`; on any
table the call either has that result or panics on a nil network, and
whatever the table and the address, a result of `IsCloudIP` carries a nil
error. -/
theorem IsCloudIP_unparsable_address (c : CloudServices) (s : String) (hs : ParseIP s = [])
    (hparse : AllRangesParse c) :
    IsCloudIP c (ParseIP s) = .ok { isCloud := false, service := "", err := none } ∧
    (∀ (c1 : CloudServices),
      IsCloudIP c1 (ParseIP s) = .ok { isCloud := false, service := "", err := none } ∨
      IsCloudIP c1 (ParseIP s) = .error Fault.nilPointer) ∧
    (∀ (c1 : CloudServices) (ip : IP) (r : Classification),
      IsCloudIP c1 ip = .ok r → r.err = none) := by
  refine ⟨?_, ?_, ?_⟩
  · rw [hs]
    rcases IsCloudIPServices_cases [] c.Services hparse with
      ⟨⟨svc, _, r, _, n, hn, hc⟩, _⟩ | ⟨_, hres⟩
    · rw [Contains_nil r n hn] at hc
      cases hc
    · exact hres
  · intro c1
    rw [hs]
    exact IsCloudIPServices_nil c1.Services
  · intro c1 ip r h
    exact IsCloudIPServices_err ip c1.Services r h

/-- C3, witness: the text `garbage` against the table `{"AWS": ["3.0.0.0/8"]}`. -/
theorem IsCloudIP_unparsable_address_witness :
    ParseIP "garbage" = [] ∧ AllRangesParse awsTable ∧
    IsCloudIP awsTable (ParseIP "garbage") =
      .ok { isCloud := false, service := "", err := none } :=
  ⟨by decide, by decide,
    (IsCloudIP_unparsable_address awsTable "garbage" (by decide) (by decide)).1⟩

/-- C3 fails as stated: the empty string does not parse as an address, and
classifying it returns `isCloud = false` with a nil error. -/
theorem IsCloudIP_invalid_address_counterexample :
    ParseIP "" = [] ∧
    IsCloudIP awsTable (ParseIP "") = .ok { isCloud := false, service := "", err := none } := by
  decide

/-- C4, as the code has it: `ReadCloudServices` checks no range string, it
returns the decoded table as it is.  `IsCloudIP` returns a result for every
address when every range of the table parses; when some range does not, it
faults on the nil network for every address that no parsed range holds. -/
theorem ReadCloudServices_returns_decoded (t : CloudServices) :
    ReadCloudServices (.decoded t) = .ok (t, none) ∧
    (AllRangesParse t → ∀ ip, ∃ r, IsCloudIP t ip = .ok r) ∧
    (¬ AllRangesParse t → ∀ ip,
      (∀ svc ∈ t.Services, ∀ r ∈ svc.IPRange, ∀ n, ParseCIDR r = some n →
        Contains n ip = false) →
      IsCloudIP t ip = .error Fault.nilPointer) := by
  refine ⟨rfl, ?_, ?_⟩
  · intro hparse ip
    rcases IsCloudIPServices_cases ip t.Services hparse with ⟨_, name, hres⟩ | ⟨_, hres⟩
    · exact ⟨_, hres⟩
    · exact ⟨_, hres⟩
  · intro hbad ip hno
    apply IsCloudIPServices_fault ip t.Services _ hno
    by_contra hcon
    apply hbad
    intro svc hsvc r hr
    cases h : ParseCIDR r with
    | none => exact absurd ⟨svc, hsvc, r, hr, h⟩ hcon
    | some n => rfl

/-- C4, witness: the table `{"AWS": ["3.0.0.0/8"]}` is returned as decoded and
answers the query for `8.8.8.8`. -/
theorem ReadCloudServices_returns_decoded_witness :
    ReadCloudServices (.decoded awsTable) = .ok (awsTable, none) ∧ AllRangesParse awsTable ∧
    ∃ r, IsCloudIP awsTable (ParseIP "8.8.8.8") = .ok r :=
  ⟨(ReadCloudServices_returns_decoded awsTable).1, by decide,
    (ReadCloudServices_returns_decoded awsTable).2.1 (by decide) (ParseIP "8.8.8.8")⟩

/-- C4 fails as stated: `ReadCloudServices` returns a table with the range
string `not-a-cidr`, which does not parse, and `IsCloudIP` on that table faults
on the nil network for the address `3.5.5.5`. -/
theorem ReadCloudServices_accepts_malformed_counterexample :
    ReadCloudServices (.decoded badTable) = .ok (badTable, none) ∧
    ParseCIDR "not-a-cidr" = none ∧ ¬ AllRangesParse badTable ∧
    IsCloudIP badTable (ParseIP "3.5.5.5") = .error Fault.nilPointer := by
  refine ⟨rfl, by decide, by decide, by decide⟩

/-! ## The feed switch -/

theorem feedSwitch_names (name : String) (body : ResponseBody) (services result : List CloudService)
    (h : feedSwitch name body services = .ok result)
    (hs : ∀ s ∈ services, s.Name ≠ "Cloudflare") : ∀ s ∈ result, s.Name ≠ "Cloudflare" := by
  unfold feedSwitch at h
  split_ifs at h with h1 h2 h3 h4
  · split at h
    · cases h
    · simp only [Except.ok.injEq] at h
      subst h
      intro s hs1
      simp only [List.mem_append, List.mem_singleton] at hs1
      rcases hs1 with (hs1 | rfl) | rfl
      · exact hs s hs1
      · rw [h1]; show "AWS" ≠ "Cloudflare"; decide
      · rw [h1]; show "AWS" ≠ "Cloudflare"; decide
  · cases h; exact hs
  · simp only [Except.ok.injEq] at h
    subst h
    intro s hs1
    simp only [List.mem_append, List.mem_singleton] at hs1
    rcases hs1 with hs1 | rfl
    · exact hs s hs1
    · exact h2
  · split at h
    · cases h
    · simp only [Except.ok.injEq] at h
      subst h
      intro s hs1
      simp only [List.mem_append, List.mem_map] at hs1
      rcases hs1 with hs1 | ⟨v, _, rfl⟩
      · exact hs s hs1
      · exact h2
  · cases h; exact hs

theorem runFeeds_names : ∀ (feeds : List (String × Option ResponseBody))
    (services result : List CloudService), runFeeds feeds services = .ok result →
    (∀ s ∈ services, s.Name ≠ "Cloudflare") → ∀ s ∈ result, s.Name ≠ "Cloudflare" := by
  intro feeds
  induction feeds with
  | nil =>
    intro services result h hs
    simp only [runFeeds, Except.ok.injEq] at h
    subst h; exact hs
  | cons f rest ih =>
    intro services result h hs
    obtain ⟨name, res⟩ := f
    unfold runFeeds at h
    split at h
    · cases h
    · rename_i services1 h1
      cases res with
      | none => simp [feedTask] at h1
      | some body =>
        exact ih services1 result h (feedSwitch_names name body services services1 h1 hs)

/-- C9: in the switch of `UpdateCloudServices` the case `"Cloudflare"` has an
empty body: whatever the response body, `c.Services` after the switch is
`c.Services` before it.  The case `"Cloudflare6"` appends one service, named
`Cloudflare6`, and no order of feed tasks ever puts a service named
`Cloudflare` into the table. -/
theorem feedSwitch_Cloudflare_unchanged (body : ResponseBody) (services : List CloudService) :
    feedSwitch "Cloudflare" body services = .ok services ∧
    feedSwitch "Cloudflare6" body services =
      .ok (services ++ [{ Name := "Cloudflare6", IPRange := body.lines }]) ∧
    (∀ (feeds : List (String × Option ResponseBody)) (result : List CloudService),
      runFeeds feeds [] = .ok result → ∀ s ∈ result, s.Name ≠ "Cloudflare") := by
  refine ⟨?_, ?_, ?_⟩
  · unfold feedSwitch
    rw [if_neg (by decide), if_pos rfl]
  · unfold feedSwitch
    rw [if_neg (by decide), if_neg (by decide), if_pos rfl]
  · intro feeds result h
    exact runFeeds_names feeds [] result h (by simp)

/-! ## Nameserver selection -/

theorem Intn_ok (raw n : Nat) (h : 1 ≤ n) : Intn raw n = .ok (raw % n) := by
  unfold Intn
  rw [if_neg (by omega)]

theorem selectNameserver_ok (nameservers : List String) (raw : Nat)
    (h : 1 ≤ nameservers.length) :
    ∃ ns, selectNameserver nameservers raw = .ok ns ∧ ns ∈ nameservers := by
  have hlt : raw % nameservers.length < nameservers.length := Nat.mod_lt _ (by omega)
  refine ⟨nameservers.get ⟨raw % nameservers.length, hlt⟩, ?_, List.get_mem _ _ _⟩
  unfold selectNameserver
  rw [Intn_ok raw _ h]
  simp [List.getElem?_eq_getElem hlt]

/-- C8: for a nameserver list of length at least 1 and any output of the random
source, `rand.Intn(len(nameservers))` returns an index in range (and every
index in range is returned for some output), the nameserver chosen is an
element of the list, and for a list of one element it is that element. -/
theorem selectNameserver_mem (nameservers : List String) (raw : Nat)
    (h : 1 ≤ nameservers.length) :
    (∃ i, Intn raw nameservers.length = .ok i ∧ i < nameservers.length) ∧
    (∀ v, v < nameservers.length → Intn v nameservers.length = .ok v) ∧
    (∃ ns, selectNameserver nameservers raw = .ok ns ∧ ns ∈ nameservers) ∧
    (∀ x, nameservers = [x] → selectNameserver nameservers raw = .ok x) := by
  have hlt : raw % nameservers.length < nameservers.length := Nat.mod_lt _ (by omega)
  refine ⟨⟨_, Intn_ok raw _ h, hlt⟩, ?_, ?_, ?_⟩
  · intro v hv
    rw [Intn_ok v _ h, Nat.mod_eq_of_lt hv]
  · exact selectNameserver_ok nameservers raw h
  · intro x hx
    subst hx
    unfold selectNameserver
    rw [Intn_ok raw _ h]
    simp [Nat.mod_one]

/-- C8, witness: the one-element list of the specification's scenario. -/
theorem selectNameserver_mem_witness :
    1 ≤ ["203.0.113.1"].length ∧ selectNameserver ["203.0.113.1"] 7 = .ok "203.0.113.1" :=
  ⟨by decide, (selectNameserver_mem ["203.0.113.1"] 7 (by decide)).2.2.2 "203.0.113.1" rfl⟩

/-- C7 fails as stated: for the empty nameserver list the selection is the
panic of `rand.Intn(0)`, not a returned value, and the goroutine of the domain
`example.test` writes no failure notice. -/
theorem selectNameserver_empty_counterexample :
    selectNameserver [] 0 = .error Fault.intnArgument ∧
    (∀ ns, selectNameserver [] 0 ≠ .ok ns) ∧
    goroutine awsTable [] (fun _ _ => (["3.5.5.5"], none)) { domain := "example.test", draw := 0 } =
      { out := [], fault := some Fault.intnArgument } := by
  refine ⟨rfl, ?_, rfl⟩
  intro ns h
  cases h

/-! ## The goroutine of one domain -/

theorem classificationLine_isClassification (r : Classification) (ip domain : String)
    (h : r.err = none) : (classificationLine r ip domain).isClassification = true := by
  unfold classificationLine
  rw [h]
  dsimp only
  split_ifs <;> rfl

/-- The classification loop writes classification lines only, one for each
address up to the first on which `IsCloudIP` faults. -/
theorem classifyAddrs_lines (cloud : CloudServices) (domain : String) : ∀ (addrs : List String),
    (∀ l ∈ (classifyAddrs cloud domain addrs).out, l.isClassification = true) ∧
    (classifyAddrs cloud domain addrs).out.length ≤ addrs.length ∧
    ((classifyAddrs cloud domain addrs).fault = none →
      (classifyAddrs cloud domain addrs).out.map some = addrs.map (addrLine cloud domain)) := by
  intro addrs
  induction addrs with
  | nil => simp [classifyAddrs]
  | cons ip rest ih =>
    unfold classifyAddrs
    cases hr : IsCloudIP cloud (ParseIP ip) with
    | error f => simp
    | ok r =>
      dsimp only
      refine ⟨?_, ?_, ?_⟩
      · intro l hl
        rcases List.mem_cons.mp hl with rfl | hl
        · exact classificationLine_isClassification r ip domain
            (IsCloudIPServices_err _ _ r hr)
        · exact ih.1 l hl
      · simp only [List.length_cons]
        have := ih.2.1
        omega
      · intro hf
        simp only [List.map_cons, addrLine, hr, ih.2.2 hf]

/-- On a table whose ranges all parse the classification loop does not fault. -/
theorem classifyAddrs_noFault (cloud : CloudServices) (domain : String)
    (hparse : AllRangesParse cloud) : ∀ (addrs : List String),
    (classifyAddrs cloud domain addrs).fault = none := by
  intro addrs
  induction addrs with
  | nil => rfl
  | cons ip rest ih =>
    unfold classifyAddrs
    rcases IsCloudIPServices_cases (ParseIP ip) cloud.Services hparse with
      ⟨_, name, hres⟩ | ⟨_, hres⟩
    · have e : IsCloudIP cloud (ParseIP ip) = .ok _ := hres
      rw [e]; exact ih
    · have e : IsCloudIP cloud (ParseIP ip) = .ok _ := hres
      rw [e]; exact ih

theorem goroutine_failed (cloud : CloudServices) (nameservers : List String)
    (lookupHost : Resolver) (j : Job) (ns : String) (addrs : List String) (e : String)
    (hsel : selectNameserver nameservers j.draw = .ok ns)
    (hfail : lookupHost ns (TrimSpace j.domain) = (addrs, some e)) :
    goroutine cloud nameservers lookupHost j = { out := [.failureNotice e], fault := none } := by
  unfold goroutine
  rw [hsel]
  simp [DoLookup, hfail]

theorem goroutine_succeeded (cloud : CloudServices) (nameservers : List String)
    (lookupHost : Resolver) (j : Job) (ns : String) (addrs : List String)
    (hsel : selectNameserver nameservers j.draw = .ok ns)
    (hok : lookupHost ns (TrimSpace j.domain) = (addrs, none)) :
    goroutine cloud nameservers lookupHost j = classifyAddrs cloud j.domain addrs := by
  unfold goroutine
  rw [hsel]
  simp [DoLookup, hok]

/-- C5, as the code has it: once a nameserver is selected, a failed lookup makes
the goroutine write exactly one failure notice, and a successful lookup makes it
write classification lines only, at most one per returned address; on a table
whose ranges all parse it is exactly one line per address, in the order of the
addresses, so one or more lines for a non-empty list and no line for the empty
list. -/
theorem goroutine_lines (cloud : CloudServices) (nameservers : List String)
    (lookupHost : Resolver) (j : Job) (ns : String)
    (hsel : selectNameserver nameservers j.draw = .ok ns) :
    (∀ addrs e, lookupHost ns (TrimSpace j.domain) = (addrs, some e) →
      goroutine cloud nameservers lookupHost j = { out := [.failureNotice e], fault := none }) ∧
    (∀ addrs, lookupHost ns (TrimSpace j.domain) = (addrs, none) →
      (∀ l ∈ (goroutine cloud nameservers lookupHost j).out, l.isClassification = true) ∧
      (goroutine cloud nameservers lookupHost j).out.length ≤ addrs.length ∧
      (AllRangesParse cloud →
        (goroutine cloud nameservers lookupHost j).fault = none ∧
        (goroutine cloud nameservers lookupHost j).out.map some =
          addrs.map (addrLine cloud j.domain) ∧
        (goroutine cloud nameservers lookupHost j).out.length = addrs.length ∧
        (addrs ≠ [] → 1 ≤ (goroutine cloud nameservers lookupHost j).out.length) ∧
        (addrs = [] → (goroutine cloud nameservers lookupHost j).out = []))) := by
  constructor
  · intro addrs e hfail
    exact goroutine_failed cloud nameservers lookupHost j ns addrs e hsel hfail
  · intro addrs hok
    rw [goroutine_succeeded cloud nameservers lookupHost j ns addrs hsel hok]
    have h := classifyAddrs_lines cloud j.domain addrs
    refine ⟨h.1, h.2.1, ?_⟩
    intro hparse
    have hf := classifyAddrs_noFault cloud j.domain hparse addrs
    have hmap := h.2.2 hf
    have hlen : (classifyAddrs cloud j.domain addrs).out.length = addrs.length := by
      have := congrArg List.length hmap
      simpa using this
    refine ⟨hf, hmap, hlen, ?_, ?_⟩
    · intro hne
      rw [hlen]
      exact List.length_pos.mpr hne
    · intro he
      subst he
      rfl

/-- C5, witness: the domain `example.test` resolving to `3.5.5.5` through the
nameserver `203.0.113.1`, against the table `{"AWS": ["3.0.0.0/8"]}`. -/
theorem goroutine_lines_witness :
    selectNameserver ["203.0.113.1"] 0 = .ok "203.0.113.1" ∧
    awsResolver "203.0.113.1" (TrimSpace "example.test") = (["3.5.5.5"], none) ∧
    AllRangesParse awsTable ∧
    (goroutine awsTable ["203.0.113.1"] awsResolver
      { domain := "example.test", draw := 0 }).out.length = 1 :=
  ⟨rfl, rfl, by decide,
    (((goroutine_lines awsTable ["203.0.113.1"] awsResolver
      { domain := "example.test", draw := 0 } "203.0.113.1" rfl).2 ["3.5.5.5"] rfl).2.2
      (by decide)).2.2.1⟩

/-- C5 fails as stated: a lookup that succeeds with the empty address list makes
the goroutine write no line at all. -/
theorem goroutine_empty_lookup_counterexample :
    selectNameserver ["203.0.113.1"] 0 = .ok "203.0.113.1" ∧
    emptyResolver "203.0.113.1" (TrimSpace "example.test") = ([], none) ∧
    goroutine awsTable ["203.0.113.1"] emptyResolver { domain := "example.test", draw := 0 } =
      { out := [], fault := none } := by
  refine ⟨rfl, rfl, ?_⟩
  rfl

/-! ## The dispatch loop as a process -/

theorem Trace.nil_andThen (t : Trace) : Trace.andThen { out := [], fault := none } t = t := by
  simp [Trace.andThen]

theorem Trace.andThen_nil (t : Trace) : t.andThen { out := [], fault := none } = t := by
  obtain ⟨o, f⟩ := t
  cases f <;> simp [Trace.andThen]

theorem Trace.andThen_assoc (a b c : Trace) : (a.andThen b).andThen c = a.andThen (b.andThen c) := by
  obtain ⟨ao, af⟩ := a
  obtain ⟨bo, bf⟩ := b
  cases af <;> cases bf <;> simp [Trace.andThen]

theorem runBatch_append (cloud : CloudServices) (nameservers : List String) (lookupHost : Resolver) :
    ∀ (a b : List Job), runBatch cloud nameservers lookupHost (a ++ b) =
      (runBatch cloud nameservers lookupHost a).andThen (runBatch cloud nameservers lookupHost b) := by
  intro a
  induction a with
  | nil => intro b; simp [runBatch, Trace.nil_andThen]
  | cons j rest ih =>
    intro b
    show (goroutine cloud nameservers lookupHost j).andThen
        (runBatch cloud nameservers lookupHost (rest ++ b)) = _
    rw [ih b]
    simp only [runBatch, Trace.andThen_assoc]

theorem single_of_append {g g1 : Trace} {before after : List Trace}
    (h : [g1] = before ++ g :: after) : before = [] ∧ after = [] ∧ g = g1 := by
  cases before with
  | nil =>
    simp only [List.nil_append, List.cons.injEq] at h
    exact ⟨rfl, h.2.symm, h.1.symm⟩
  | cons b bs =>
    simp only [List.cons_append, List.cons.injEq] at h
    have := h.2
    cases bs <;> simp at this

/-- A live goroutine can only step in a state that waits with that one goroutine. -/
theorem ProcState.Inv.live_step {s : ProcState} (hinv : s.Inv) (hc : s.crashed = none)
    {before after : List Trace} {g : Trace} (hl : s.live = before ++ g :: after) :
    s.pc = .wait ∧ s.live = [g] ∧ before = [] ∧ after = [] ∧ s.wg = 1 := by
  rcases hinv.2 hc with h | ⟨j, _, h, _⟩ | h | ⟨hpc, ⟨g1, hg⟩, hwg⟩ | h
  · rw [h.2.1] at hl; cases before <;> simp at hl
  · rw [h] at hl; cases before <;> simp at hl
  · rw [h.2.1] at hl; cases before <;> simp at hl
  · rw [hg] at hl
    obtain ⟨hb, ha, hgg⟩ := single_of_append hl
    exact ⟨hpc, by rw [hg, hgg], hb, ha, hwg⟩
  · rw [h.2.1] at hl; cases before <;> simp at hl

/-- Every step keeps the invariant and leaves the final trace as it was. -/
theorem Step.keepsInv (cloud : CloudServices) (nameservers : List String)
    (lookupHost : Resolver) (s t : ProcState) (hstep : Step cloud nameservers lookupHost s t)
    (hinv : s.Inv) :
    t.Inv ∧ t.final cloud nameservers lookupHost = s.final cloud nameservers lookupHost := by
  cases hstep with
  | scanNext j rest hc hpc hpend =>
    rcases hinv.2 hc with h | ⟨j1, h, _⟩ | h | h | h
    · refine ⟨⟨by simp [h.2.1], fun _ => Or.inr (Or.inl ⟨j, rfl, h.2.1, by simp [h.2.2]⟩)⟩, ?_⟩
      simp [ProcState.final, hc, hpc, hpend, runBatch]
    · rw [hpc] at h; cases h
    · rw [hpc] at h; cases h.1
    · rw [hpc] at h; cases h.1
    · rw [hpc] at h; cases h.1
  | scanEnd hc hpc hpend =>
    rcases hinv.2 hc with h | ⟨j1, h, _⟩ | h | h | h
    · refine ⟨⟨by simp [h.2.1], fun _ => Or.inr (Or.inr (Or.inr (Or.inr ⟨rfl, h.2.1, hpend⟩)))⟩, ?_⟩
      simp [ProcState.final, hc, hpc, hpend, runBatch]
    · rw [hpc] at h; cases h
    · rw [hpc] at h; cases h.1
    · rw [hpc] at h; cases h.1
    · rw [hpc] at h; cases h.1
  | go j hc hpc =>
    rcases hinv.2 hc with h | ⟨j1, h, hl, hwg⟩ | h | h | h
    · rw [hpc] at h; cases h.1
    · refine ⟨⟨by simp [hl], fun _ => Or.inr (Or.inr (Or.inr (Or.inl
        ⟨rfl, ⟨goroutine cloud nameservers lookupHost j, by simp [hl]⟩, hwg⟩)))⟩, ?_⟩
      simp [ProcState.final, hc, hpc, hl, liveTrace, Trace.andThen_nil]
    · rw [hpc] at h; cases h.1
    · rw [hpc] at h; cases h.1
    · rw [hpc] at h; cases h.1
  | waitReturn hc hpc hwg =>
    rcases hinv.2 hc with h | ⟨j1, h, _⟩ | h | h | h
    · rw [hpc] at h; cases h.1
    · rw [hpc] at h; cases h
    · refine ⟨⟨by simp [h.2.1], fun _ => Or.inl ⟨rfl, h.2.1, hwg⟩⟩, ?_⟩
      simp [ProcState.final, hc, hpc, h.2.1, liveTrace, Trace.nil_andThen]
    · rw [hwg] at h; cases h.2.2
    · rw [hpc] at h; cases h.1
  | print before after g x xs hc _ hl hg =>
    obtain ⟨hpc, hlive, hb, ha, hwg⟩ := hinv.live_step hc hl
    subst hb; subst ha
    refine ⟨⟨by simp, fun _ => Or.inr (Or.inr (Or.inr (Or.inl ⟨hpc, ⟨_, rfl⟩, hwg⟩)))⟩, ?_⟩
    obtain ⟨go, gf⟩ := g
    simp only at hg
    subst hg
    cases gf <;>
      simp [ProcState.final, hc, hpc, hlive, liveTrace, Trace.andThen]
  | done before after g hc _ hl hg hf =>
    obtain ⟨hpc, hlive, hb, ha, hwg⟩ := hinv.live_step hc hl
    subst hb; subst ha
    refine ⟨⟨by simp, fun _ => Or.inr (Or.inr (Or.inl ⟨hpc, rfl, by simp [hwg]⟩))⟩, ?_⟩
    obtain ⟨go, gf⟩ := g
    simp only at hg hf
    subst hg; subst hf
    simp [ProcState.final, hc, hpc, hlive, liveTrace, Trace.andThen]
  | panic before after g f hc _ hl hg hf =>
    obtain ⟨hpc, hlive, hb, ha, hwg⟩ := hinv.live_step hc hl
    subst hb; subst ha
    refine ⟨⟨by simp, fun h => by simp at h⟩, ?_⟩
    obtain ⟨go, gf⟩ := g
    simp only at hg hf
    subst hg; subst hf
    simp [ProcState.final, hc, hpc, hlive, liveTrace, Trace.andThen]

theorem ProcState.init_Inv (jobs : List Job) : (ProcState.init jobs).Inv :=
  ⟨by simp [ProcState.init], fun _ => Or.inl ⟨rfl, rfl, rfl⟩⟩

theorem ProcState.init_final (cloud : CloudServices) (nameservers : List String)
    (lookupHost : Resolver) (jobs : List Job) :
    (ProcState.init jobs).final cloud nameservers lookupHost =
      runBatch cloud nameservers lookupHost jobs := by
  simp [ProcState.final, ProcState.init, Trace.andThen]

theorem Reaches.keepsInvAll (cloud : CloudServices) (nameservers : List String)
    (lookupHost : Resolver) (s t : ProcState) (h : Reaches cloud nameservers lookupHost s t)
    (hinv : s.Inv) :
    t.Inv ∧ t.final cloud nameservers lookupHost = s.final cloud nameservers lookupHost := by
  induction h with
  | refl => exact ⟨hinv, rfl⟩
  | tail t u _ hstep ih =>
    have h2 := Step.keepsInv cloud nameservers lookupHost t u hstep ih.1
    exact ⟨h2.1, h2.2.trans ih.2⟩

/-- Whatever the schedule, a process that has ended has written the output of
the goroutines run one after the other, and ended the same way. -/
theorem Reaches.ended_trace (cloud : CloudServices) (nameservers : List String)
    (lookupHost : Resolver) (jobs : List Job) (s : ProcState)
    (h : Reaches cloud nameservers lookupHost (ProcState.init jobs) s) (he : s.ended) :
    ({ out := s.out, fault := s.crashed } : Trace) = runBatch cloud nameservers lookupHost jobs := by
  have hp := Reaches.keepsInvAll cloud nameservers lookupHost _ s h (ProcState.init_Inv jobs)
  rw [ProcState.init_final] at hp
  rw [← hp.2]
  cases hc : s.crashed with
  | some f => simp [ProcState.final, hc]
  | none =>
    rcases he with hpc | hne
    · simp [ProcState.final, hc, hpc, Trace.andThen]
    · exact absurd hc hne

theorem Reaches.head (cloud : CloudServices) (nameservers : List String) (lookupHost : Resolver)
    (s t u : ProcState) (hstep : Step cloud nameservers lookupHost s t)
    (h : Reaches cloud nameservers lookupHost t u) : Reaches cloud nameservers lookupHost s u := by
  induction h with
  | refl => exact Reaches.tail s s t (Reaches.refl s) hstep
  | tail v w _ hvw ih => exact Reaches.tail s v w ih hvw

/-- Every step lowers the measure: no run of the process goes on for ever. -/
theorem Step.measure_lt (cloud : CloudServices) (nameservers : List String)
    (lookupHost : Resolver) (s t : ProcState) (hstep : Step cloud nameservers lookupHost s t) :
    t.measure cloud nameservers lookupHost < s.measure cloud nameservers lookupHost := by
  cases hstep with
  | scanNext j rest hc hpc hpend =>
    simp only [ProcState.measure, hc, hpc, hpend, List.map_cons, List.sum_cons]
    omega
  | scanEnd hc hpc hpend =>
    simp only [ProcState.measure, hc, hpc, hpend]
    omega
  | go j hc hpc =>
    simp only [ProcState.measure, hc, hpc, List.map_append, List.sum_append, List.map_cons,
      List.map_nil, List.sum_cons, List.sum_nil]
    omega
  | waitReturn hc hpc hwg =>
    simp only [ProcState.measure, hc, hpc]
    omega
  | print before after g x xs hc _ hl hg =>
    simp only [ProcState.measure, hc, hl, hg, List.map_append, List.sum_append, List.map_cons,
      List.sum_cons, List.length_cons]
    omega
  | done before after g hc _ hl hg hf =>
    simp only [ProcState.measure, hc, hl, hg, List.map_append, List.sum_append, List.map_cons,
      List.sum_cons, List.length_nil]
    omega
  | panic before after g f hc _ hl hg hf =>
    simp only [ProcState.measure, hc, hl, hg, List.map_append, List.sum_append, List.map_cons,
      List.sum_cons, List.length_nil]
    omega

/-- A process that has not ended can take a step: the loop does not deadlock. -/
theorem ProcState.Inv.progress (cloud : CloudServices) (nameservers : List String)
    (lookupHost : Resolver) (s : ProcState) (hinv : s.Inv) (hne : ¬ s.ended) :
    ∃ t, Step cloud nameservers lookupHost s t := by
  have hc : s.crashed = none := by
    by_contra h
    exact hne (Or.inr h)
  rcases hinv.2 hc with h | ⟨j, h, _⟩ | h | ⟨hpc, ⟨g, hg⟩, _⟩ | h
  · cases hp : s.pending with
    | nil => exact ⟨_, Step.scanEnd s hc h.1 hp⟩
    | cons j rest => exact ⟨_, Step.scanNext s j rest hc h.1 hp⟩
  · exact ⟨_, Step.go s j hc h⟩
  · exact ⟨_, Step.waitReturn s hc h.1 h.2.2⟩
  · have hpc1 : s.pc ≠ .exited := by rw [hpc]; intro h; cases h
    have hl : s.live = [] ++ g :: [] := by simp [hg]
    cases ho : g.out with
    | cons x xs => exact ⟨_, Step.print s [] [] g x xs hc hpc1 hl ho⟩
    | nil =>
      cases hf : g.fault with
      | none => exact ⟨_, Step.done s [] [] g hc hpc1 hl ho hf⟩
      | some f => exact ⟨_, Step.panic s [] [] g f hc hpc1 hl ho hf⟩
  · exact absurd (Or.inl h.1) hne

/-- From every state of the loop the process can run to its end. -/
theorem ProcState.Inv.terminates (cloud : CloudServices) (nameservers : List String)
    (lookupHost : Resolver) : ∀ (n : Nat) (s : ProcState),
    s.measure cloud nameservers lookupHost ≤ n → s.Inv →
    ∃ t, Reaches cloud nameservers lookupHost s t ∧ t.ended := by
  intro n
  induction n with
  | zero =>
    intro s hm hinv
    by_cases he : s.ended
    · exact ⟨s, Reaches.refl s, he⟩
    · obtain ⟨t, ht⟩ := hinv.progress cloud nameservers lookupHost s he
      have := Step.measure_lt cloud nameservers lookupHost s t ht
      omega
  | succ n ih =>
    intro s hm hinv
    by_cases he : s.ended
    · exact ⟨s, Reaches.refl s, he⟩
    · obtain ⟨t, ht⟩ := hinv.progress cloud nameservers lookupHost s he
      have hlt := Step.measure_lt cloud nameservers lookupHost s t ht
      obtain ⟨u, hu, hue⟩ := ih t (by omega)
        (Step.keepsInv cloud nameservers lookupHost s t ht hinv).1
      exact ⟨u, Reaches.head cloud nameservers lookupHost s t u ht hu, hue⟩

theorem runBatch_out_of_noFault (cloud : CloudServices) (nameservers : List String)
    (lookupHost : Resolver) : ∀ (jobs : List Job),
    (runBatch cloud nameservers lookupHost jobs).fault = none →
    (runBatch cloud nameservers lookupHost jobs).out =
      (jobs.map (fun j => (goroutine cloud nameservers lookupHost j).out)).flatten := by
  intro jobs
  induction jobs with
  | nil => intro _; rfl
  | cons j rest ih =>
    intro hf
    unfold runBatch Trace.andThen at hf ⊢
    cases hg : (goroutine cloud nameservers lookupHost j).fault with
    | some f => rw [hg] at hf; simp at hf
    | none =>
      rw [hg] at hf
      simp only at hf ⊢
      rw [ih hf]
      simp

theorem goroutine_noFault (cloud : CloudServices) (nameservers : List String)
    (lookupHost : Resolver) (j : Job) (hparse : AllRangesParse cloud)
    (hns : 1 ≤ nameservers.length) :
    (goroutine cloud nameservers lookupHost j).fault = none := by
  obtain ⟨ns, hsel, _⟩ := selectNameserver_ok nameservers j.draw hns
  rcases hl : lookupHost ns (TrimSpace j.domain) with ⟨addrs, err⟩
  cases err with
  | some e => rw [goroutine_failed cloud nameservers lookupHost j ns addrs e hsel hl]
  | none =>
    rw [goroutine_succeeded cloud nameservers lookupHost j ns addrs hsel hl]
    exact classifyAddrs_noFault cloud j.domain hparse addrs

theorem runBatch_noFault (cloud : CloudServices) (nameservers : List String)
    (lookupHost : Resolver) (hparse : AllRangesParse cloud) (hns : 1 ≤ nameservers.length) :
    ∀ (jobs : List Job), (runBatch cloud nameservers lookupHost jobs).fault = none := by
  intro jobs
  induction jobs with
  | nil => rfl
  | cons j rest ih =>
    unfold runBatch Trace.andThen
    rw [goroutine_noFault cloud nameservers lookupHost j hparse hns]
    exact ih

/-! ## The claims about the dispatch loop -/

/-- C6: when the lookup of domain K fails, the batch is the goroutines before
K, then the one failure notice of K, then the goroutines after K, and the
batch without K is the same with that notice left out.  If no goroutine before
K panics, the output with K is the output of the domains before K, the
failure notice, and the output of the domains after K, each as in the batch
without K, and both batches end the same way; this holds of the output of
every run of the process, whatever the schedule. -/
theorem lookup_failure_isolated (cloud : CloudServices) (nameservers : List String)
    (lookupHost : Resolver) (pre post : List Job) (k : Job) (ns : String)
    (addrs : List String) (e : String)
    (hsel : selectNameserver nameservers k.draw = .ok ns)
    (hfail : lookupHost ns (TrimSpace k.domain) = (addrs, some e)) :
    runBatch cloud nameservers lookupHost (pre ++ k :: post) =
      (runBatch cloud nameservers lookupHost pre).andThen
        (Trace.andThen { out := [.failureNotice e], fault := none }
          (runBatch cloud nameservers lookupHost post)) ∧
    runBatch cloud nameservers lookupHost (pre ++ post) =
      (runBatch cloud nameservers lookupHost pre).andThen
        (runBatch cloud nameservers lookupHost post) ∧
    ((runBatch cloud nameservers lookupHost pre).fault = none →
      ∀ s, Reaches cloud nameservers lookupHost (ProcState.init (pre ++ k :: post)) s → s.ended →
      ∀ s0, Reaches cloud nameservers lookupHost (ProcState.init (pre ++ post)) s0 → s0.ended →
        s.out = (runBatch cloud nameservers lookupHost pre).out ++
          OutputLine.failureNotice e :: (runBatch cloud nameservers lookupHost post).out ∧
        s0.out = (runBatch cloud nameservers lookupHost pre).out ++
          (runBatch cloud nameservers lookupHost post).out ∧
        s.crashed = s0.crashed) := by
  have h1 : runBatch cloud nameservers lookupHost (pre ++ k :: post) =
      (runBatch cloud nameservers lookupHost pre).andThen
        (Trace.andThen { out := [.failureNotice e], fault := none }
          (runBatch cloud nameservers lookupHost post)) := by
    rw [runBatch_append]
    simp only [runBatch, goroutine_failed cloud nameservers lookupHost k ns addrs e hsel hfail]
  have h2 := runBatch_append cloud nameservers lookupHost pre post
  refine ⟨h1, h2, ?_⟩
  intro hpre s hs hse s0 hs0 hs0e
  have t1 := Reaches.ended_trace cloud nameservers lookupHost _ s hs hse
  have t2 := Reaches.ended_trace cloud nameservers lookupHost _ s0 hs0 hs0e
  rw [h1] at t1
  rw [h2] at t2
  simp only [Trace.andThen, hpre] at t1 t2
  injection t1 with t1o t1f
  injection t2 with t2o t2f
  refine ⟨?_, t2o, by rw [t1f, t2f]⟩
  rw [t1o]
  simp

/-- C6, witness: three domains against the nameserver `203.0.113.1`, the second
failing: the first and the third keep their classification lines. -/
theorem lookup_failure_isolated_witness :
    selectNameserver ["203.0.113.1"] 1 = .ok "203.0.113.1" ∧
    flakyResolver "203.0.113.1" (TrimSpace "bad.test") = ([], some "lookup bad.test: i/o timeout") ∧
    runBatch awsTable ["203.0.113.1"] flakyResolver sampleJobs =
      { out := [.cloudLine "AWS" "3.5.5.5" "a.test",
                .failureNotice "lookup bad.test: i/o timeout",
                .cloudLine "AWS" "3.5.5.5" "b.test"],
        fault := none } := by
  refine ⟨rfl, by decide, ?_⟩
  have h := (lookup_failure_isolated awsTable ["203.0.113.1"] flakyResolver
    [{ domain := "a.test", draw := 0 }] [{ domain := "b.test", draw := 2 }]
    { domain := "bad.test", draw := 1 } "203.0.113.1" [] "lookup bad.test: i/o timeout"
    rfl (by decide)).1
  have e : sampleJobs = [{ domain := "a.test", draw := 0 }] ++
      { domain := "bad.test", draw := 1 } :: [{ domain := "b.test", draw := 2 }] := rfl
  rw [e, h]
  decide

/-- C10: the loop waits on the wait group right after it starts a goroutine, so
in every state of the process at most one goroutine is live; every run ends
(each step lowers a measure, and an ended state is reached), and whatever the
schedule the output at the end is that of the goroutines run one after the
other in the order of the lines: the concatenation of the outputs of the
domains' goroutines up to the first that panics, and of all of them on a table
whose ranges parse with a non-empty nameserver list.  There the goroutine of a
domain whose lookup succeeds writes one classification line for each address,
in the order of the addresses. -/
theorem dispatch_output_in_order (cloud : CloudServices) (nameservers : List String)
    (lookupHost : Resolver) (jobs : List Job) :
    (∀ s, Reaches cloud nameservers lookupHost (ProcState.init jobs) s → s.live.length ≤ 1) ∧
    (∀ s t, Step cloud nameservers lookupHost s t →
      t.measure cloud nameservers lookupHost < s.measure cloud nameservers lookupHost) ∧
    (∃ s, Reaches cloud nameservers lookupHost (ProcState.init jobs) s ∧ s.ended) ∧
    (∀ s, Reaches cloud nameservers lookupHost (ProcState.init jobs) s → s.ended →
      ({ out := s.out, fault := s.crashed } : Trace) = runBatch cloud nameservers lookupHost jobs) ∧
    ((runBatch cloud nameservers lookupHost jobs).fault = none →
      (runBatch cloud nameservers lookupHost jobs).out =
        (jobs.map (fun j => (goroutine cloud nameservers lookupHost j).out)).flatten) ∧
    (AllRangesParse cloud → 1 ≤ nameservers.length →
      ∀ s, Reaches cloud nameservers lookupHost (ProcState.init jobs) s → s.ended →
        s.crashed = none ∧
        s.out = (jobs.map (fun j => (goroutine cloud nameservers lookupHost j).out)).flatten) ∧
    (AllRangesParse cloud → ∀ j ns addrs, selectNameserver nameservers j.draw = .ok ns →
      lookupHost ns (TrimSpace j.domain) = (addrs, none) →
      (goroutine cloud nameservers lookupHost j).out.map some =
        addrs.map (addrLine cloud j.domain)) := by
  refine ⟨?_, ?_, ?_, ?_, ?_, ?_, ?_⟩
  · intro s hs
    exact (Reaches.keepsInvAll cloud nameservers lookupHost _ s hs (ProcState.init_Inv jobs)).1.1
  · intro s t hst
    exact Step.measure_lt cloud nameservers lookupHost s t hst
  · exact ProcState.Inv.terminates cloud nameservers lookupHost _ _ (Nat.le_refl _)
      (ProcState.init_Inv jobs)
  · intro s hs he
    exact Reaches.ended_trace cloud nameservers lookupHost jobs s hs he
  · exact runBatch_out_of_noFault cloud nameservers lookupHost jobs
  · intro hparse hns s hs he
    have ht := Reaches.ended_trace cloud nameservers lookupHost jobs s hs he
    have hf := runBatch_noFault cloud nameservers lookupHost hparse hns jobs
    have ho := runBatch_out_of_noFault cloud nameservers lookupHost jobs hf
    rw [← ht] at hf ho
    exact ⟨hf, ho⟩
  · intro hparse j ns addrs hsel hok
    rw [goroutine_succeeded cloud nameservers lookupHost j ns addrs hsel hok]
    exact (classifyAddrs_lines cloud j.domain addrs).2.2
      (classifyAddrs_noFault cloud j.domain hparse addrs)

/-- C10, witness: the batch of three domains, the second failing, against the
table `{"AWS": ["3.0.0.0/8"]}`: every run ends without a panic and with the
three lines in the order of the domains. -/
theorem dispatch_output_in_order_witness :
    AllRangesParse awsTable ∧ 1 ≤ ["203.0.113.1"].length ∧
    (∀ s, Reaches awsTable ["203.0.113.1"] flakyResolver (ProcState.init sampleJobs) s →
      s.ended →
      s.crashed = none ∧
      s.out = [.cloudLine "AWS" "3.5.5.5" "a.test",
               .failureNotice "lookup bad.test: i/o timeout",
               .cloudLine "AWS" "3.5.5.5" "b.test"]) := by
  refine ⟨by decide, by decide, ?_⟩
  intro s hs he
  have h := (dispatch_output_in_order awsTable ["203.0.113.1"] flakyResolver sampleJobs).2.2.2.2.2.1
    (by decide) (by decide) s hs he
  refine ⟨h.1, ?_⟩
  rw [h.2]
  decide

/-- C7, as the code has it: with an empty nameserver list `rand.Intn(0)`
panics, so the selection is a fault, and the goroutine of every domain ends in
that panic without writing a line; no error value is produced.  A batch with
at least one domain ends, on every run of the process, in that panic with
nothing written. -/
theorem selectNameserver_empty_faults (raw : Nat) :
    selectNameserver [] raw = .error Fault.intnArgument ∧
    (∀ (cloud : CloudServices) (lookupHost : Resolver) (domain : String),
      goroutine cloud [] lookupHost { domain := domain, draw := raw } =
        { out := [], fault := some Fault.intnArgument }) ∧
    (∀ (cloud : CloudServices) (lookupHost : Resolver) (domain : String) (rest : List Job)
      (s : ProcState),
      Reaches cloud [] lookupHost
        (ProcState.init ({ domain := domain, draw := raw } :: rest)) s → s.ended →
      s.out = [] ∧ s.crashed = some Fault.intnArgument) := by
  refine ⟨rfl, fun _ _ _ => rfl, ?_⟩
  intro cloud lookupHost domain rest s hs he
  have ht := Reaches.ended_trace cloud [] lookupHost _ s hs he
  have hb : runBatch cloud [] lookupHost ({ domain := domain, draw := raw } :: rest) =
      { out := [], fault := some Fault.intnArgument } := rfl
  rw [hb] at ht
  injection ht with ho hf
  exact ⟨ho, hf⟩

end GoCloud
